import Mathlib

/-!
# PoseAILiveLinkSource: subject registry and frame routing

A shallow embedding of `UnrealLiveLink/Private/PoseAILiveLinkSource.cpp`.

* Unreal containers are lists: `TArray` is a list, `TMap` an association list in
  insertion order (with the replace-in-place `Add` and remove-all `Remove` of the
  engine containers), `TQueue` a list whose head is the next element dequeued.
* The object state, the file-level statics (`usedPorts`, `mutx`, `lockedAt`,
  `unlockedAt`) and the log of calls issued to the LiveLink client are fields of
  one record.
* The LiveLink client, `PoseAIRig::MakeStaticData`, `PoseAIRig::ProcessFrame`
  and the server's `GetIP` are not part of this file of the repository; they are
  parameters collected in `Env`.
* Dereferencing a null `liveLinkClient` and a failed `TMap::operator[]` are
  faults: the operations that can reach one return `Except Fault _`.
-/

namespace PoseAI

/-! ## Engine containers -/

/-- The engine's dynamic array. -/
abbrev TArray (α : Type) := List α

/-- `TArray::Emplace`: append one element at the end. -/
def TArray.Emplace {α : Type} (a : TArray α) (x : α) : TArray α := a ++ [x]

/-- `TArray::Remove`: remove every element equal to the item. -/
def TArray.Remove {α : Type} [DecidableEq α] (a : TArray α) (x : α) : TArray α :=
  a.filter (fun y => decide (y ≠ x))

/-- `TArray::Contains`. -/
def TArray.Contains {α : Type} [DecidableEq α] (a : TArray α) (x : α) : Bool :=
  a.any (fun y => decide (y = x))

/-- The engine's map, as an association list; `Find` sees the first entry of a key. -/
abbrev TMap (κ ν : Type) := List (κ × ν)

/-- `TMap::Find`: the value stored for the key, `none` for the null pointer. -/
def TMap.Find {κ ν : Type} [DecidableEq κ] : TMap κ ν → κ → Option ν
  | [], _ => none
  | (k, v) :: m, x => if k = x then some v else TMap.Find m x

/-- `TMap::Remove`: drop the entries of the key. -/
def TMap.Remove {κ ν : Type} [DecidableEq κ] (m : TMap κ ν) (x : κ) : TMap κ ν :=
  m.filter (fun e => decide (e.1 ≠ x))

/-- `TMap::Add`: overwrite the value of an existing key in place, else add an entry. -/
def TMap.Add {κ ν : Type} [DecidableEq κ] : TMap κ ν → κ → ν → TMap κ ν
  | [], x, v => [(x, v)]
  | (k, w) :: m, x, v => if k = x then (x, v) :: m else (k, w) :: TMap.Add m x v

/-- The names stored in a map, in iteration order. -/
def TMap.Keys {κ ν : Type} (m : TMap κ ν) : List κ := m.map Prod.fst

/-- A map of the engine holds one entry per key. -/
def TMap.WF {κ ν : Type} (m : TMap κ ν) : Prop := (TMap.Keys m).Nodup

/-- `FString::Contains` with its default `ESearchCase::IgnoreCase`. -/
def FString.Contains (s sub : String) : Bool :=
  (s.data.map Char.toLower).tails.any
    (fun t => (sub.data.map Char.toLower).isPrefixOf t)

/-! ## Data -/

/-- An interned name; a value stands for the name-table entry it denotes. -/
abbrev FName := String

/-- The identity LiveLink gives a source. -/
abbrev FGuid := Nat

/-- The object an `ILiveLinkClient*` points to. -/
abbrev ClientId := Nat

/-- The decoded pose document (`TSharedPtr<FJsonObject>`). -/
abbrev FJsonObject := String

/-- The skeleton definition a rig produces. -/
abbrev FLiveLinkStaticDataStruct := Nat

/-- The animation frame a rig produces. -/
abbrev FLiveLinkFrameDataStruct := Nat

/-- `FLiveLinkSubjectKey(sourceGuid, name)`. -/
structure FLiveLinkSubjectKey where
  Source : FGuid
  SubjectName : FName
  deriving DecidableEq, Repr

/-- The handshake fields this file reads. -/
structure PoseAIHandshake where
  rig : String
  mode : String
  isMirrored : Bool
  deriving DecidableEq, Repr

/-- The arguments `PoseAIRig` is constructed from, and a value standing for the
rest of the rig's mutable state. -/
structure PoseAIRig where
  rigType : FName
  useRootMotion : Bool
  includeHands : Bool
  isMirrored : Bool
  isDesktop : Bool
  internal : Nat
  deriving DecidableEq, Repr

/-- One call issued to a LiveLink client. -/
inductive Call where
  | CreateSubject (c : ClientId) (key : FLiveLinkSubjectKey)
  | RemoveSubject (c : ClientId) (key : FLiveLinkSubjectKey)
  | PushSubjectStaticData (c : ClientId) (key : FLiveLinkSubjectKey)
      (data : FLiveLinkStaticDataStruct)
  | PushSubjectFrameData (c : ClientId) (key : FLiveLinkSubjectKey)
      (frame : FLiveLinkFrameDataStruct)
  deriving DecidableEq, Repr

/-- The call creates the subject of this key. -/
def Call.isCreate (key : FLiveLinkSubjectKey) : Call → Bool
  | .CreateSubject _ k => decide (k = key)
  | _ => false

/-- The call removes the subject of this key. -/
def Call.isRemove (key : FLiveLinkSubjectKey) : Call → Bool
  | .RemoveSubject _ k => decide (k = key)
  | _ => false

/-- The call pushes static data for this key. -/
def Call.isPushStatic (key : FLiveLinkSubjectKey) : Call → Bool
  | .PushSubjectStaticData _ k _ => decide (k = key)
  | _ => false

/-- The call pushes a frame, for any key. -/
def Call.isPushFrame : Call → Bool
  | .PushSubjectFrameData _ _ _ => true
  | _ => false

/-- The call registers something: a creation or a push of static data. -/
def Call.isRegistration : Call → Bool
  | .CreateSubject _ _ => true
  | .PushSubjectStaticData _ _ _ => true
  | _ => false

/-- The collaborators of the source that live outside this file. -/
structure Env where
  /-- The answer of `ILiveLinkClient::CreateSubject` of a client, which may depend
  on every call issued before. -/
  CreateSubject : ClientId → List Call → FLiveLinkSubjectKey → Bool
  /-- The result of `PoseAIRig::MakeStaticData`. -/
  MakeStaticData : PoseAIRig → FLiveLinkStaticDataStruct
  /-- The result of `PoseAIRig::ProcessFrame`: whether the document was accepted,
  the frame written, and the rig afterwards. -/
  ProcessFrame : PoseAIRig → FJsonObject → Bool × FLiveLinkFrameDataStruct × PoseAIRig
  /-- The address `PoseAILiveLinkServer::GetIP` reports. -/
  GetIP : String

/-- What stops an operation: a null pointer dereferenced, or a key that
`TMap::operator[]` does not find. -/
inductive Fault where
  | nullDeref
  | keyNotFound
  deriving DecidableEq, Repr

/-- The fields of a `PoseAILiveLinkSource`, the statics of the file, and the log
of the calls made to LiveLink clients so far. -/
structure PoseAILiveLinkSource where
  /-- Static `usedPorts`. -/
  usedPorts : TArray Int
  /-- Static `mutx`: how many times the critical section is held. -/
  mutx : Nat
  /-- Static `lockedAt`. -/
  lockedAt : Nat
  /-- Static `unlockedAt`. -/
  unlockedAt : Nat
  /-- Calls issued to LiveLink clients, oldest first. -/
  calls : List Call
  port : Int
  handshake : PoseAIHandshake
  useRootMotion : Bool
  enabled : Bool
  status : String
  sourceGuid : FGuid
  client : Option ClientId
  liveLinkClient : Option ClientId
  /-- Whether `udpServer` points to a server. -/
  udpServer : Bool
  subjectKeys : TMap FName FLiveLinkSubjectKey
  rigs : TMap FName PoseAIRig
  newConnections : List FName
  deriving DecidableEq, Repr

/-- The statics of the file as they are before a source is constructed. -/
structure Statics where
  usedPorts : TArray Int
  mutx : Nat
  lockedAt : Nat
  unlockedAt : Nat
  calls : List Call
  deriving DecidableEq, Repr

/-! ## Operations -/

/-- `PoseAILiveLinkSource::IsValidPort`. -/
def IsValidPort (usedPorts : TArray Int) (port : Int) : Bool :=
  !(TArray.Contains usedPorts port)

/-- The constructor: reserves the port without looking at `usedPorts`, starts
the server and sets the status text. The members it does not name start out
default: a zero guid, null client pointers, empty containers. -/
def PoseAILiveLinkSource.construct (env : Env) (g : Statics) (portNum : Int)
    (handshake : PoseAIHandshake) (useRootMotion : Bool) : PoseAILiveLinkSource :=
  { usedPorts := TArray.Emplace g.usedPorts portNum
    mutx := g.mutx
    lockedAt := g.lockedAt
    unlockedAt := g.unlockedAt
    calls := g.calls
    port := portNum
    handshake := handshake
    useRootMotion := useRootMotion
    enabled := true
    status := "listening on " ++ env.GetIP ++ " Port:" ++ toString portNum
    sourceGuid := 0
    client := none
    liveLinkClient := none
    udpServer := true
    subjectKeys := []
    rigs := []
    newConnections := [] }

/-- The destructor: removes the port of the source from `usedPorts`. -/
def PoseAILiveLinkSource.destruct (s : PoseAILiveLinkSource) : Statics :=
  { usedPorts := TArray.Remove s.usedPorts s.port
    mutx := s.mutx
    lockedAt := s.lockedAt
    unlockedAt := s.unlockedAt
    calls := s.calls }

/-- `PoseAILiveLinkSource::MakeRig`. -/
def MakeRig (s : PoseAILiveLinkSource) : PoseAIRig :=
  { rigType := s.handshake.rig
    useRootMotion := s.useRootMotion
    includeHands := !(FString.Contains s.handshake.mode "BodyOnly")
    isMirrored := s.handshake.isMirrored
    isDesktop := FString.Contains s.handshake.mode "Desktop"
    internal := 0 }

/-- `PoseAILiveLinkSource::AddSubject`, lines 49 to 54: take the lock and, when the
name has a key, remove that subject from the client and the key from the map. -/
def AddSubject.replace (s : PoseAILiveLinkSource) (name : FName) :
    Except Fault PoseAILiveLinkSource :=
  let s1 := { s with mutx := s.mutx + 1, lockedAt := 49 }
  match TMap.Find s1.subjectKeys name with
  | none => .ok s1
  | some old =>
    match s1.liveLinkClient with
    | none => .error Fault.nullDeref
    | some c =>
      .ok { s1 with calls := s1.calls ++ [Call.RemoveSubject c old]
                    subjectKeys := TMap.Remove s1.subjectKeys name }

/-- `PoseAILiveLinkSource::AddSubject`, lines 56 to 66: ask the client to create the
subject; on refusal return at once, the lock still held; else store a rig, remove
the subject, push the static data, store the key and release the lock. -/
def AddSubject.create (env : Env) (s : PoseAILiveLinkSource) (name : FName) :
    Except Fault PoseAILiveLinkSource :=
  let key : FLiveLinkSubjectKey := { Source := s.sourceGuid, SubjectName := name }
  match s.liveLinkClient with
  | none => .error Fault.nullDeref
  | some c =>
    let accepted := env.CreateSubject c s.calls key
    let s2 := { s with calls := s.calls ++ [Call.CreateSubject c key] }
    if accepted = false then .ok s2
    else
      let s3 := { s2 with rigs := TMap.Add s2.rigs name (MakeRig s2) }
      match TMap.Find s3.rigs name with
      | none => .error Fault.keyNotFound
      | some rig =>
        .ok { s3 with
              calls := s3.calls ++ [Call.RemoveSubject c key,
                Call.PushSubjectStaticData c key (env.MakeStaticData rig)]
              subjectKeys := TMap.Add s3.subjectKeys name key
              mutx := s3.mutx - 1
              unlockedAt := 66 }

/-- `PoseAILiveLinkSource::AddSubject`. -/
def AddSubject (env : Env) (s : PoseAILiveLinkSource) (name : FName) :
    Except Fault PoseAILiveLinkSource :=
  match AddSubject.replace s name with
  | .error e => .error e
  | .ok s1 => AddSubject.create env s1 name

/-- The loop of `PoseAILiveLinkSource::Update`, with a bound on its rounds. -/
def Update.loop (env : Env) : Nat → PoseAILiveLinkSource → Except Fault PoseAILiveLinkSource
  | 0, s => .ok s
  | fuel + 1, s =>
    match s.newConnections with
    | [] => .ok s
    | newSubject :: rest =>
      match AddSubject env { s with newConnections := rest } newSubject with
      | .error e => .error e
      | .ok s1 => Update.loop env fuel s1

/-- `PoseAILiveLinkSource::Update`: one round per queued name. -/
def Update (env : Env) (s : PoseAILiveLinkSource) : Except Fault PoseAILiveLinkSource :=
  Update.loop env s.newConnections.length s

/-- The loop of `PoseAILiveLinkSource::ReceiveClient` over the names of the map. -/
def ReceiveClient.loop (env : Env) :
    List FName → PoseAILiveLinkSource → Except Fault PoseAILiveLinkSource
  | [], s => .ok s
  | name :: rest, s =>
    match AddSubject env s name with
    | .error e => .error e
    | .ok s1 => ReceiveClient.loop env rest s1

/-- `PoseAILiveLinkSource::ReceiveClient`. The log line reads through the client
pointer. The loop visits the entries the map holds on entry: `AddSubject` removes
the entry it is given and, when the client accepts, adds it back in its place. -/
def ReceiveClient (env : Env) (s : PoseAILiveLinkSource) (InClient : Option ClientId)
    (InSourceGuid : FGuid) : Except Fault PoseAILiveLinkSource :=
  let s1 := { s with sourceGuid := InSourceGuid, client := InClient,
                     liveLinkClient := InClient }
  match InClient with
  | none => .error Fault.nullDeref
  | some _ => ReceiveClient.loop env (TMap.Keys s1.subjectKeys) s1

/-- `PoseAILiveLinkSource::disable`. -/
def disable (s : PoseAILiveLinkSource) : PoseAILiveLinkSource :=
  { s with status := "disabled"
           mutx := s.mutx + 1 - 1
           lockedAt := 116
           liveLinkClient := none
           unlockedAt := 118
           enabled := false }

/-- `PoseAILiveLinkSource::RequestSourceShutdown`: the value returned and the
state afterwards. -/
def RequestSourceShutdown (s : PoseAILiveLinkSource) : Bool × PoseAILiveLinkSource :=
  let removals : List Call :=
    match s.liveLinkClient with
    | none => []
    | some c => s.subjectKeys.map (fun elem => Call.RemoveSubject c elem.2)
  (true,
   { s with calls := s.calls ++ removals
            subjectKeys := []
            udpServer := false
            mutx := s.mutx + 1 - 1
            lockedAt := 138
            liveLinkClient := none
            unlockedAt := 140 })

/-- `PoseAILiveLinkSource::UpdatePose`. The rig is written through the pointer
`Find` returned. -/
def UpdatePose (env : Env) (s : PoseAILiveLinkSource) (name : FName)
    (jsonPose : FJsonObject) : PoseAILiveLinkSource :=
  match s.liveLinkClient with
  | none => s
  | some c =>
    match TMap.Find s.subjectKeys name with
    | none => { s with newConnections := s.newConnections ++ [name] }
    | some key =>
      match TMap.Find s.rigs name with
      | none => s
      | some rig =>
        let r := env.ProcessFrame rig jsonPose
        let s1 := { s with rigs := TMap.Add s.rigs name r.2.2 }
        if r.1 = true then
          { s1 with calls := s1.calls ++ [Call.PushSubjectFrameData c key r.2.1] }
        else s1

/-! ## Concrete values for the worked examples -/

/-- A client that accepts every creation, a rig that accepts the document `"valid"`. -/
def demoEnv : Env :=
  { CreateSubject := fun _ _ _ => true
    MakeStaticData := fun _ => 0
    ProcessFrame := fun r doc => (decide (doc = "valid"), 1, r)
    GetIP := "127.0.0.1" }

/-- A client that refuses every creation. -/
def refusingEnv : Env :=
  { CreateSubject := fun _ _ _ => false
    MakeStaticData := fun _ => 0
    ProcessFrame := fun r doc => (decide (doc = "valid"), 1, r)
    GetIP := "127.0.0.1" }

/-- The statics of a process that has constructed no source yet. -/
def freshStatics : Statics :=
  { usedPorts := [], mutx := 0, lockedAt := 0, unlockedAt := 0, calls := [] }

/-- The handshake of the scenario: default skeleton, no mode flag. -/
def demoHandshake : PoseAIHandshake :=
  { rig := "Default", mode := "", isMirrored := false }

/-- A source freshly constructed on port 14043. -/
def freshSource : PoseAILiveLinkSource :=
  PoseAILiveLinkSource.construct demoEnv freshStatics 14043 demoHandshake false

/-- The fresh source with client 7 attached under guid 1. -/
def attachedSource : PoseAILiveLinkSource :=
  { freshSource with sourceGuid := 1, client := some 7, liveLinkClient := some 7 }

/-- The attached source with Alice registered. -/
def aliceSource : PoseAILiveLinkSource :=
  { attachedSource with
    calls := [Call.CreateSubject 7 { Source := 1, SubjectName := "Alice" },
      Call.RemoveSubject 7 { Source := 1, SubjectName := "Alice" },
      Call.PushSubjectStaticData 7 { Source := 1, SubjectName := "Alice" } 0]
    lockedAt := 49
    unlockedAt := 66
    subjectKeys := [("Alice", { Source := 1, SubjectName := "Alice" })]
    rigs := [("Alice", MakeRig attachedSource)] }

/-! ## Definitions used to state the properties -/

/-- The removal `AddSubject` issues first when the name already has a key. -/
def oldRemoval (c : ClientId) (m : TMap FName FLiveLinkSubjectKey) (name : FName) :
    List Call :=
  match TMap.Find m name with
  | some old => [Call.RemoveSubject c old]
  | none => []

/-- The client a call was issued to. -/
def Call.client : Call → ClientId
  | .CreateSubject c _ => c
  | .RemoveSubject c _ => c
  | .PushSubjectStaticData c _ _ => c
  | .PushSubjectFrameData c _ _ => c

/-- The calls one `AddSubject(name)` issues to client `c` when the creation is
accepted: the removal of the old key if there is one, then the creation, the removal
and the push of static data for the new key. -/
def acceptCalls (env : Env) (c : ClientId) (s : PoseAILiveLinkSource) (name : FName) :
    List Call :=
  oldRemoval c s.subjectKeys name ++
    [Call.CreateSubject c { Source := s.sourceGuid, SubjectName := name },
     Call.RemoveSubject c { Source := s.sourceGuid, SubjectName := name },
     Call.PushSubjectStaticData c { Source := s.sourceGuid, SubjectName := name }
       (env.MakeStaticData (MakeRig s))]

/-- The state one `AddSubject(name)` leaves when client `c` accepts the creation. -/
def acceptStep (env : Env) (c : ClientId) (s : PoseAILiveLinkSource) (name : FName) :
    PoseAILiveLinkSource :=
  { s with
    mutx := s.mutx + 1 - 1
    lockedAt := 49
    unlockedAt := 66
    calls := s.calls ++ acceptCalls env c s name
    rigs := TMap.Add s.rigs name (MakeRig s)
    subjectKeys := TMap.Add (TMap.Remove s.subjectKeys name) name
      { Source := s.sourceGuid, SubjectName := name } }

/-- The calls a run of accepted `AddSubject` calls over a list of names issues. -/
def acceptAllCalls (env : Env) (c : ClientId) :
    List FName → PoseAILiveLinkSource → List Call
  | [], _ => []
  | name :: rest, s =>
    acceptCalls env c s name ++ acceptAllCalls env c rest (acceptStep env c s name)

/-- How many entries of the map store this key. -/
def storedCount (m : TMap FName FLiveLinkSubjectKey) (key : FLiveLinkSubjectKey) : Nat :=
  m.countP (fun e => decide (e.2 = key))

/-- Every entry of the map that stores this key is the entry of this name. -/
def storedOnlyUnder (m : TMap FName FLiveLinkSubjectKey) (key : FLiveLinkSubjectKey)
    (name : FName) : Prop :=
  ∀ e ∈ m, e.2 = key → e.1 = name

/-- The static `usedPorts` together with the ports of the sources that are alive,
one entry per live source. -/
structure PortWorld where
  usedPorts : TArray Int
  live : List Int
  deriving DecidableEq, Repr

/-- A source is constructed on a port, or a source holding a port is destroyed. -/
inductive PortOp where
  | construct (port : Int)
  | destroy (port : Int)
  deriving DecidableEq, Repr

/-- The effect of a constructor or destructor on `usedPorts`: the constructor appends
its port, the destructor of a live source removes its port. -/
def PortWorld.step (w : PortWorld) : PortOp → PortWorld
  | .construct p => { usedPorts := TArray.Emplace w.usedPorts p, live := w.live ++ [p] }
  | .destroy p =>
    if p ∈ w.live then
      { usedPorts := TArray.Remove w.usedPorts p, live := w.live.erase p }
    else w

/-- A sequence of constructions and destructions, from the left. -/
def PortWorld.run (w : PortWorld) (ops : List PortOp) : PortWorld :=
  ops.foldl PortWorld.step w

/-- The process before any source exists. -/
def PortWorld.start : PortWorld := { usedPorts := [], live := [] }

/-- Every construction of the sequence is made on a port for which `IsValidPort`
answers true at that moment. -/
def PortWorld.checked : PortWorld → List PortOp → Prop
  | _, [] => True
  | w, .construct p :: rest =>
    IsValidPort w.usedPorts p = true ∧ PortWorld.checked (w.step (.construct p)) rest
  | w, .destroy p :: rest => PortWorld.checked (w.step (.destroy p)) rest

/-- Plain containment: the characters of `sub` occur in `s` as one contiguous run,
letter case included. -/
def containsExact (s sub : String) : Prop := sub.data <:+: s.data

/-- Containment ignoring letter case: the characters of `sub`, lower-cased, occur as
one contiguous run in the lower-cased characters of `s`. -/
def containsIgnoringCase (s sub : String) : Prop :=
  sub.data.map Char.toLower <:+: s.data.map Char.toLower

/-- A source whose handshake has the given mode, for the examples on `MakeRig`. -/
def sourceWithMode (mode : String) : PoseAILiveLinkSource :=
  PoseAILiveLinkSource.construct demoEnv freshStatics 14043
    { rig := "Default", mode := mode, isMirrored := false } false

/-- One operation on a source. -/
inductive Op where
  | AddSubject (name : FName)
  | Update
  | ReceiveClient (InClient : Option ClientId) (InSourceGuid : FGuid)
  | disable
  | RequestSourceShutdown
  | UpdatePose (name : FName) (jsonPose : FJsonObject)
  deriving DecidableEq, Repr

/-- The state an operation leaves, or the fault that stops it. -/
def runOp (env : Env) (s : PoseAILiveLinkSource) : Op → Except Fault PoseAILiveLinkSource
  | .AddSubject name => AddSubject env s name
  | .Update => Update env s
  | .ReceiveClient InClient InSourceGuid => ReceiveClient env s InClient InSourceGuid
  | .disable => .ok (disable s)
  | .RequestSourceShutdown => .ok (RequestSourceShutdown s).2
  | .UpdatePose name jsonPose => .ok (UpdatePose env s name jsonPose)

/-- The states a source goes through: the state the constructor leaves, and every
state an operation that returns leaves from one of them. -/
inductive Reachable (env : Env) : PoseAILiveLinkSource → Prop where
  | fresh (g : Statics) (portNum : Int) (handshake : PoseAIHandshake)
      (useRootMotion : Bool) :
      Reachable env (PoseAILiveLinkSource.construct env g portNum handshake useRootMotion)
  | step (s s1 : PoseAILiveLinkSource) (op : Op) :
      Reachable env s → runOp env s op = .ok s1 → Reachable env s1

/-- Every name that has a key has a rig. -/
def keysHaveRigs (s : PoseAILiveLinkSource) : Prop :=
  ∀ name, name ∈ TMap.Keys s.subjectKeys → name ∈ TMap.Keys s.rigs

/-- Every key stored in the map carries the name it is stored under. -/
def keysCarryNames (s : PoseAILiveLinkSource) : Prop :=
  ∀ e ∈ s.subjectKeys, e.2.SubjectName = e.1

/-! ## Lemmas on the containers -/

theorem TMap.Find_eq_none_iff {κ ν : Type} [DecidableEq κ] (m : TMap κ ν) (x : κ) :
    TMap.Find m x = none ↔ x ∉ TMap.Keys m := by
  induction m with
  | nil => simp [TMap.Find, TMap.Keys]
  | cons e m ih =>
    obtain ⟨k, v⟩ := e
    by_cases h : k = x
    · simp [TMap.Find, TMap.Keys, h]
    · have h2 : ¬ x = k := fun h3 => h h3.symm
      simpa [TMap.Find, TMap.Keys, h, h2] using ih

theorem TMap.Find_Remove_self {κ ν : Type} [DecidableEq κ] (m : TMap κ ν) (x : κ) :
    TMap.Find (TMap.Remove m x) x = none := by
  rw [TMap.Find_eq_none_iff]
  simp [TMap.Remove, TMap.Keys, List.mem_filter]

theorem TMap.Find_Remove_ne {κ ν : Type} [DecidableEq κ] (m : TMap κ ν) (x y : κ)
    (h : y ≠ x) : TMap.Find (TMap.Remove m x) y = TMap.Find m y := by
  have h2 : ¬ x = y := fun h3 => h h3.symm
  induction m with
  | nil => rfl
  | cons e m ih =>
    obtain ⟨k, v⟩ := e
    simp only [TMap.Remove] at ih
    by_cases hk : k = x
    · subst hk
      simpa [TMap.Remove, TMap.Find, List.filter_cons, h2] using ih
    · by_cases hky : k = y
      · subst hky
        simp [TMap.Remove, TMap.Find, List.filter_cons, hk]
      · simpa [TMap.Remove, TMap.Find, List.filter_cons, hk, hky] using ih

theorem TMap.Find_Add_self {κ ν : Type} [DecidableEq κ] (m : TMap κ ν) (x : κ) (v : ν) :
    TMap.Find (TMap.Add m x v) x = some v := by
  induction m with
  | nil => simp [TMap.Add, TMap.Find]
  | cons e m ih =>
    obtain ⟨k, w⟩ := e
    by_cases hk : k = x
    · simp [TMap.Add, TMap.Find, hk]
    · simpa [TMap.Add, TMap.Find, hk] using ih

theorem TMap.Find_Add_ne {κ ν : Type} [DecidableEq κ] (m : TMap κ ν) (x y : κ) (v : ν)
    (h : y ≠ x) : TMap.Find (TMap.Add m x v) y = TMap.Find m y := by
  have h2 : ¬ x = y := fun h3 => h h3.symm
  induction m with
  | nil => simp [TMap.Add, TMap.Find, h2]
  | cons e m ih =>
    obtain ⟨k, w⟩ := e
    by_cases hk : k = x
    · subst hk
      simp [TMap.Add, TMap.Find, h2]
    · by_cases hky : k = y
      · subst hky
        simp [TMap.Add, TMap.Find, hk]
      · simpa [TMap.Add, TMap.Find, hk, hky] using ih

theorem TMap.Keys_Add_of_mem {κ ν : Type} [DecidableEq κ] (m : TMap κ ν) (x : κ) (v : ν)
    (h : x ∈ TMap.Keys m) : TMap.Keys (TMap.Add m x v) = TMap.Keys m := by
  induction m with
  | nil => simp [TMap.Keys] at h
  | cons e m ih =>
    obtain ⟨k, w⟩ := e
    by_cases hk : k = x
    · simp [TMap.Add, TMap.Keys, hk]
    · have hx : x ∈ TMap.Keys m := by
        have h2 : ¬ x = k := fun h3 => hk h3.symm
        simpa [TMap.Keys, h2] using h
      have := ih hx
      simp only [TMap.Keys] at this
      simp [TMap.Add, TMap.Keys, hk, this]

theorem TMap.Keys_Add_of_not_mem {κ ν : Type} [DecidableEq κ] (m : TMap κ ν) (x : κ) (v : ν)
    (h : x ∉ TMap.Keys m) : TMap.Keys (TMap.Add m x v) = TMap.Keys m ++ [x] := by
  induction m with
  | nil => simp [TMap.Add, TMap.Keys]
  | cons e m ih =>
    obtain ⟨k, w⟩ := e
    have hk : ¬ k = x := by
      intro h3
      apply h
      simp [TMap.Keys, h3]
    have hx : x ∉ TMap.Keys m := by
      intro h3
      apply h
      simp only [TMap.Keys] at h3
      simp [TMap.Keys, h3]
    have := ih hx
    simp only [TMap.Keys] at this
    simp [TMap.Add, TMap.Keys, hk, this]

theorem TMap.Remove_of_Find_none {κ ν : Type} [DecidableEq κ] (m : TMap κ ν) (x : κ)
    (h : TMap.Find m x = none) : TMap.Remove m x = m := by
  rw [TMap.Find_eq_none_iff] at h
  simp only [TMap.Remove, List.filter_eq_self]
  intro e he
  have : e.1 ≠ x := by
    intro h3
    apply h
    rw [← h3]
    exact List.mem_map_of_mem Prod.fst he
  simpa using this

/-! ## Lemmas on `AddSubject` -/

theorem AddSubject_refused (env : Env) (s : PoseAILiveLinkSource) (name : FName)
    (c : ClientId) (hc : s.liveLinkClient = some c)
    (hr : env.CreateSubject c (s.calls ++ oldRemoval c s.subjectKeys name)
      { Source := s.sourceGuid, SubjectName := name } = false) :
    AddSubject env s name = .ok
      { s with
        mutx := s.mutx + 1
        lockedAt := 49
        calls := s.calls ++ oldRemoval c s.subjectKeys name ++
          [Call.CreateSubject c { Source := s.sourceGuid, SubjectName := name }]
        subjectKeys := TMap.Remove s.subjectKeys name } := by
  cases h : TMap.Find s.subjectKeys name with
  | none =>
    simp only [oldRemoval, h, List.append_nil] at hr
    simp [AddSubject, AddSubject.replace, AddSubject.create, h, hc, hr, oldRemoval,
      TMap.Remove_of_Find_none]
  | some old =>
    simp only [oldRemoval, h] at hr
    simp [AddSubject, AddSubject.replace, AddSubject.create, h, hc, hr, oldRemoval]

theorem AddSubject_accepted (env : Env) (s : PoseAILiveLinkSource) (name : FName)
    (c : ClientId) (hc : s.liveLinkClient = some c)
    (ha : env.CreateSubject c (s.calls ++ oldRemoval c s.subjectKeys name)
      { Source := s.sourceGuid, SubjectName := name } = true) :
    AddSubject env s name = .ok
      { s with
        mutx := s.mutx + 1 - 1
        lockedAt := 49
        unlockedAt := 66
        calls := s.calls ++ oldRemoval c s.subjectKeys name ++
          [Call.CreateSubject c { Source := s.sourceGuid, SubjectName := name },
           Call.RemoveSubject c { Source := s.sourceGuid, SubjectName := name },
           Call.PushSubjectStaticData c { Source := s.sourceGuid, SubjectName := name }
             (env.MakeStaticData (MakeRig s))]
        rigs := TMap.Add s.rigs name (MakeRig s)
        subjectKeys := TMap.Add (TMap.Remove s.subjectKeys name) name
          { Source := s.sourceGuid, SubjectName := name } } := by
  cases h : TMap.Find s.subjectKeys name with
  | none =>
    simp only [oldRemoval, h, List.append_nil] at ha
    simp [AddSubject, AddSubject.replace, AddSubject.create, h, hc, ha, oldRemoval,
      TMap.Remove_of_Find_none, TMap.Find_Add_self, MakeRig]
  | some old =>
    simp only [oldRemoval, h] at ha
    simp [AddSubject, AddSubject.replace, AddSubject.create, h, hc, ha, oldRemoval,
      TMap.Find_Add_self, MakeRig]

theorem Update_null_client_faults (env : Env) (s : PoseAILiveLinkSource)
    (hc : s.liveLinkClient = none) (hq : s.newConnections ≠ []) :
    Update env s = .error Fault.nullDeref := by
  cases hq2 : s.newConnections with
  | nil => exact absurd hq2 hq
  | cons n rest =>
    cases h : TMap.Find s.subjectKeys n <;>
      simp [Update, Update.loop, hq2, AddSubject, AddSubject.replace, AddSubject.create,
        h, hc]

theorem AddSubject_accept_step (env : Env) (s : PoseAILiveLinkSource) (name : FName)
    (c : ClientId) (hc : s.liveLinkClient = some c)
    (hacc : ∀ tr k, env.CreateSubject c tr k = true) :
    AddSubject env s name = .ok (acceptStep env c s name) := by
  rw [AddSubject_accepted env s name c hc (hacc _ _)]
  simp [acceptStep, acceptCalls]

theorem acceptStep_liveLinkClient (env : Env) (c : ClientId) (s : PoseAILiveLinkSource)
    (name : FName) : (acceptStep env c s name).liveLinkClient = s.liveLinkClient := rfl

theorem acceptStep_sourceGuid (env : Env) (c : ClientId) (s : PoseAILiveLinkSource)
    (name : FName) : (acceptStep env c s name).sourceGuid = s.sourceGuid := rfl

theorem loop_accept (env : Env) (c : ClientId)
    (hacc : ∀ tr k, env.CreateSubject c tr k = true) (names : List FName) :
    ∀ s : PoseAILiveLinkSource, s.liveLinkClient = some c →
      ReceiveClient.loop env names s = .ok (names.foldl (acceptStep env c) s) := by
  induction names with
  | nil => intro s _; rfl
  | cons n rest ih =>
    intro s hc
    simp only [ReceiveClient.loop, AddSubject_accept_step env s n c hc hacc, List.foldl_cons]
    exact ih _ hc

theorem foldl_acceptStep_sourceGuid (env : Env) (c : ClientId) (names : List FName) :
    ∀ s : PoseAILiveLinkSource,
      (names.foldl (acceptStep env c) s).sourceGuid = s.sourceGuid ∧
      (names.foldl (acceptStep env c) s).liveLinkClient = s.liveLinkClient ∧
      (names.foldl (acceptStep env c) s).newConnections = s.newConnections := by
  induction names with
  | nil => intro s; exact ⟨rfl, rfl, rfl⟩
  | cons n rest ih =>
    intro s
    simpa [List.foldl_cons] using ih (acceptStep env c s n)

theorem foldl_acceptStep_calls (env : Env) (c : ClientId) (names : List FName) :
    ∀ s : PoseAILiveLinkSource,
      (names.foldl (acceptStep env c) s).calls = s.calls ++ acceptAllCalls env c names s := by
  induction names with
  | nil => intro s; simp [acceptAllCalls]
  | cons n rest ih =>
    intro s
    rw [List.foldl_cons, ih]
    simp [acceptAllCalls, acceptStep, List.append_assoc]

theorem oldRemoval_countP_isCreate (c : ClientId) (m : TMap FName FLiveLinkSubjectKey)
    (name : FName) (key : FLiveLinkSubjectKey) :
    (oldRemoval c m name).countP (Call.isCreate key) = 0 ∧
    (oldRemoval c m name).countP (Call.isPushStatic key) = 0 ∧
    ∀ call ∈ oldRemoval c m name, call.client = c := by
  unfold oldRemoval
  cases TMap.Find m name <;> simp [Call.isCreate, Call.isPushStatic, Call.client]

theorem acceptAllCalls_counts (env : Env) (c : ClientId) (key : FLiveLinkSubjectKey)
    (names : List FName) :
    ∀ s : PoseAILiveLinkSource,
      (acceptAllCalls env c names s).countP (Call.isCreate key) =
        (if key.Source = s.sourceGuid then names.count key.SubjectName else 0) ∧
      (acceptAllCalls env c names s).countP (Call.isPushStatic key) =
        (if key.Source = s.sourceGuid then names.count key.SubjectName else 0) ∧
      ∀ call ∈ acceptAllCalls env c names s, call.client = c := by
  induction names with
  | nil => intro s; simp [acceptAllCalls]
  | cons n rest ih =>
    intro s
    obtain ⟨h1, h2, h3⟩ := ih (acceptStep env c s n)
    obtain ⟨o1, o2, o3⟩ := oldRemoval_countP_isCreate c s.subjectKeys n key
    rw [acceptStep_sourceGuid] at h1 h2
    have hkey : ({ Source := s.sourceGuid, SubjectName := n } : FLiveLinkSubjectKey) = key ↔
        (key.Source = s.sourceGuid ∧ n = key.SubjectName) := by
      cases key
      simp only [FLiveLinkSubjectKey.mk.injEq]
      constructor
      · rintro ⟨a, b⟩; exact ⟨a.symm, b⟩
      · rintro ⟨a, b⟩; exact ⟨a.symm, b⟩
    refine ⟨?_, ?_, ?_⟩
    · simp only [acceptAllCalls, acceptCalls, List.countP_append, o1, h1, List.countP_cons,
        List.countP_nil, Call.isCreate, hkey, List.count_cons]
      by_cases hs : key.Source = s.sourceGuid <;> by_cases hn : n = key.SubjectName <;>
        simp [hs, hn, Nat.add_comm]
    · simp only [acceptAllCalls, acceptCalls, List.countP_append, o2, h2, List.countP_cons,
        List.countP_nil, Call.isPushStatic, hkey, List.count_cons]
      by_cases hs : key.Source = s.sourceGuid <;> by_cases hn : n = key.SubjectName <;>
        simp [hs, hn, Nat.add_comm]
    · intro call hcall
      simp only [acceptAllCalls, acceptCalls, List.mem_append, List.mem_cons,
        List.mem_singleton, List.not_mem_nil, or_false] at hcall
      rcases hcall with (hO | hC | hR | hP) | hrest
      · exact o3 call hO
      · rw [hC]; rfl
      · rw [hR]; rfl
      · rw [hP]; rfl
      · exact h3 call hrest

theorem TMap.Keys_Remove {κ ν : Type} [DecidableEq κ] (m : TMap κ ν) (x : κ) :
    TMap.Keys (TMap.Remove m x) = (TMap.Keys m).filter (fun k => decide (k ≠ x)) := by
  induction m with
  | nil => rfl
  | cons e m ih =>
    obtain ⟨k, v⟩ := e
    simp only [TMap.Keys, TMap.Remove] at ih
    by_cases hk : k = x
    · simpa [TMap.Keys, TMap.Remove, List.filter_cons, hk] using ih
    · simpa [TMap.Keys, TMap.Remove, List.filter_cons, hk] using ih

theorem TMap.Keys_Add_Remove {κ ν : Type} [DecidableEq κ] (m : TMap κ ν) (x : κ) (v : ν) :
    TMap.Keys (TMap.Add (TMap.Remove m x) x v) =
      (TMap.Keys m).filter (fun k => decide (k ≠ x)) ++ [x] := by
  rw [TMap.Keys_Add_of_not_mem, TMap.Keys_Remove]
  rw [← TMap.Find_eq_none_iff]
  exact TMap.Find_Remove_self m x

theorem TMap.WF_Add_Remove {κ ν : Type} [DecidableEq κ] (m : TMap κ ν) (x : κ) (v : ν)
    (h : TMap.WF m) : TMap.WF (TMap.Add (TMap.Remove m x) x v) := by
  unfold TMap.WF at *
  rw [TMap.Keys_Add_Remove]
  refine List.Nodup.append (h.filter _) (List.nodup_singleton x) ?_
  intro a ha hx
  rw [List.mem_singleton] at hx
  subst hx
  simp [List.mem_filter] at ha

theorem acceptStep_Find (env : Env) (c : ClientId) (s : PoseAILiveLinkSource)
    (n x : FName) :
    TMap.Find (acceptStep env c s n).subjectKeys x =
      if x = n then some { Source := s.sourceGuid, SubjectName := x }
      else TMap.Find s.subjectKeys x := by
  by_cases h : x = n
  · subst h
    simp [acceptStep, TMap.Find_Add_self]
  · simp only [acceptStep, h, if_false]
    rw [TMap.Find_Add_ne _ _ _ _ h, TMap.Find_Remove_ne _ _ _ h]

theorem foldl_acceptStep_Find (env : Env) (c : ClientId) (names : List FName) :
    ∀ (s : PoseAILiveLinkSource) (x : FName),
      TMap.Find (names.foldl (acceptStep env c) s).subjectKeys x =
        if x ∈ names then some { Source := s.sourceGuid, SubjectName := x }
        else TMap.Find s.subjectKeys x := by
  induction names with
  | nil => intro s x; simp
  | cons n rest ih =>
    intro s x
    rw [List.foldl_cons, ih, acceptStep_sourceGuid, acceptStep_Find]
    by_cases h1 : x ∈ rest
    · simp [h1]
    · by_cases h2 : x = n
      · simp [h2]
      · simp [h1, h2]

theorem foldl_acceptStep_WF (env : Env) (c : ClientId) (names : List FName) :
    ∀ s : PoseAILiveLinkSource, TMap.WF s.subjectKeys →
      TMap.WF (names.foldl (acceptStep env c) s).subjectKeys := by
  induction names with
  | nil => intro s h; exact h
  | cons n rest ih =>
    intro s h
    rw [List.foldl_cons]
    exact ih _ (TMap.WF_Add_Remove _ _ _ h)

theorem TMap.mem_of_Find {κ ν : Type} [DecidableEq κ] (m : TMap κ ν) (x : κ) (v : ν)
    (h : TMap.Find m x = some v) : (x, v) ∈ m := by
  induction m with
  | nil => simp [TMap.Find] at h
  | cons e m ih =>
    obtain ⟨k, w⟩ := e
    by_cases hk : k = x
    · subst hk
      simp only [TMap.Find, if_true, Option.some.injEq] at h
      subst h
      exact List.mem_cons_self _ _
    · simp only [TMap.Find, hk, if_false] at h
      exact List.mem_cons_of_mem _ (ih h)

theorem TMap.Add_Remove_eq {κ ν : Type} [DecidableEq κ] (m : TMap κ ν) (x : κ) (v : ν) :
    TMap.Add (TMap.Remove m x) x v = TMap.Remove m x ++ [(x, v)] := by
  have h : ∀ l : TMap κ ν, x ∉ TMap.Keys l → TMap.Add l x v = l ++ [(x, v)] := by
    intro l
    induction l with
    | nil => intro _; rfl
    | cons e l ih =>
      obtain ⟨k, w⟩ := e
      intro hx
      have hk : ¬ k = x := by
        intro h3
        apply hx
        simp [TMap.Keys, h3]
      have hx2 : x ∉ TMap.Keys l := by
        intro h3
        apply hx
        simp only [TMap.Keys] at h3
        simp [TMap.Keys, h3]
      simp [TMap.Add, hk, ih hx2]
  apply h
  rw [← TMap.Find_eq_none_iff]
  exact TMap.Find_Remove_self m x

/-! ## Lemmas on the removals of an accepted run -/

theorem acceptStep_storedOnlyUnder (env : Env) (c : ClientId) (s : PoseAILiveLinkSource)
    (n name : FName)
    (hJ : storedOnlyUnder s.subjectKeys { Source := s.sourceGuid, SubjectName := name } name) :
    storedOnlyUnder (acceptStep env c s n).subjectKeys
      { Source := s.sourceGuid, SubjectName := name } name := by
  intro e he hkey
  simp only [acceptStep, TMap.Add_Remove_eq, List.mem_append, List.mem_singleton] at he
  rcases he with he | he
  · simp only [TMap.Remove, List.mem_filter] at he
    exact hJ e he.1 hkey
  · subst he
    simp only [FLiveLinkSubjectKey.mk.injEq, true_and] at hkey
    exact hkey

theorem acceptStep_storedCount (env : Env) (c : ClientId) (s : PoseAILiveLinkSource)
    (n name : FName)
    (hJ : storedOnlyUnder s.subjectKeys { Source := s.sourceGuid, SubjectName := name } name) :
    storedCount (acceptStep env c s n).subjectKeys
        { Source := s.sourceGuid, SubjectName := name } =
      if n = name then 1
      else storedCount s.subjectKeys { Source := s.sourceGuid, SubjectName := name } := by
  simp only [acceptStep, TMap.Add_Remove_eq, storedCount, List.countP_append,
    List.countP_cons, List.countP_nil, FLiveLinkSubjectKey.mk.injEq, true_and,
    decide_eq_true_eq, Nat.zero_add]
  by_cases hn : n = name
  · subst hn
    simp only [if_true]
    have hz : List.countP
        (fun e => decide (e.2 = ({ Source := s.sourceGuid, SubjectName := n } :
          FLiveLinkSubjectKey)))
        (TMap.Remove s.subjectKeys n) = 0 := by
      rw [List.countP_eq_zero]
      intro e he
      simp only [TMap.Remove, List.mem_filter, decide_eq_true_eq] at he
      simp only [decide_eq_true_eq]
      intro hkey
      exact he.2 (hJ e he.1 hkey)
    rw [hz]
  · simp only [hn, if_false, Nat.add_zero]
    simp only [TMap.Remove, List.countP_filter]
    apply List.countP_congr
    intro e he
    simp only [Bool.and_eq_true, decide_eq_true_eq]
    constructor
    · intro h; exact h.1
    · intro h
      refine ⟨h, ?_⟩
      intro h2
      exact hn (h2.symm.trans (hJ e he h))

theorem acceptCalls_countP_isRemove (env : Env) (c : ClientId) (s : PoseAILiveLinkSource)
    (n name : FName)
    (hJ : storedOnlyUnder s.subjectKeys { Source := s.sourceGuid, SubjectName := name } name) :
    (acceptCalls env c s n).countP
        (Call.isRemove { Source := s.sourceGuid, SubjectName := name }) =
      if n = name then
        (if TMap.Find s.subjectKeys name =
            some { Source := s.sourceGuid, SubjectName := name } then 2 else 1)
      else 0 := by
  by_cases hn : n = name
  · subst hn
    cases hf : TMap.Find s.subjectKeys n with
    | none => simp [acceptCalls, oldRemoval, hf, Call.isRemove]
    | some old =>
      by_cases ho : old = { Source := s.sourceGuid, SubjectName := n }
      · simp [acceptCalls, oldRemoval, hf, Call.isRemove, ho]
      · simp [acceptCalls, oldRemoval, hf, Call.isRemove, ho]
  · cases hf : TMap.Find s.subjectKeys n with
    | none => simp [acceptCalls, oldRemoval, hf, Call.isRemove, hn]
    | some old =>
      have ho : ¬ old = { Source := s.sourceGuid, SubjectName := name } := by
        intro h2
        exact hn (hJ (n, old) (TMap.mem_of_Find _ _ _ hf) h2)
      simp [acceptCalls, oldRemoval, hf, Call.isRemove, hn, ho]

theorem acceptAll_removes (env : Env) (c : ClientId) (name : FName) (g : FGuid)
    (names : List FName) :
    ∀ s : PoseAILiveLinkSource, s.sourceGuid = g →
      storedOnlyUnder s.subjectKeys { Source := g, SubjectName := name } name →
      storedOnlyUnder (names.foldl (acceptStep env c) s).subjectKeys
        { Source := g, SubjectName := name } name ∧
      storedCount (names.foldl (acceptStep env c) s).subjectKeys
          { Source := g, SubjectName := name } =
        (if name ∈ names then 1
         else storedCount s.subjectKeys { Source := g, SubjectName := name }) ∧
      (acceptAllCalls env c names s).countP
          (Call.isRemove { Source := g, SubjectName := name }) =
        (if names.count name = 0 then 0
         else 2 * names.count name - 1 +
           (if TMap.Find s.subjectKeys name = some { Source := g, SubjectName := name }
            then 1 else 0)) := by
  induction names with
  | nil => intro s _ hJ; exact ⟨hJ, by simp, by simp [acceptAllCalls]⟩
  | cons n rest ih =>
    intro s hg hJ
    have hJs : storedOnlyUnder s.subjectKeys
        { Source := s.sourceGuid, SubjectName := name } name := by rw [hg]; exact hJ
    have hJ1 := acceptStep_storedOnlyUnder env c s n name hJs
    have hsc1 := acceptStep_storedCount env c s n name hJs
    have hrm1 := acceptCalls_countP_isRemove env c s n name hJs
    have hf1 := acceptStep_Find env c s n name
    rw [hg] at hJ1 hsc1 hrm1 hf1
    obtain ⟨iJ, isc, irm⟩ := ih (acceptStep env c s n) hg hJ1
    refine ⟨iJ, ?_, ?_⟩
    · rw [List.foldl_cons, isc, hsc1]
      by_cases h1 : name ∈ rest
      · simp [h1]
      · by_cases h2 : n = name
        · simp [h2]
        · have h3 : ¬ name = n := fun h => h2 h.symm
          simp [h1, h2, h3]
    · simp only [acceptAllCalls, List.countP_append, hrm1, irm, hf1]
      by_cases h2 : n = name
      · subst h2
        have hcnt : List.count n (n :: rest) = List.count n rest + 1 := by simp
        rw [hcnt]
        have h6 : ¬ (List.count n rest + 1 = 0) := by omega
        simp only [if_true, h6, if_false]
        by_cases h4 : TMap.Find s.subjectKeys n = some { Source := g, SubjectName := n }
        · simp only [h4, if_true]
          by_cases h5 : List.count n rest = 0
          · simp [h5]
          · simp only [h5, if_false]
            omega
        · simp only [h4, if_false]
          by_cases h5 : List.count n rest = 0
          · simp [h5]
          · simp only [h5, if_false]
            omega
      · have h3 : ¬ name = n := fun h => h2 h.symm
        have hcnt : List.count name (n :: rest) = List.count name rest := by
          simp [List.count_cons, h2]
        rw [hcnt]
        simp [h2, h3]

theorem foldl_acceptStep_newConnections (env : Env) (c : ClientId) (names : List FName) :
    ∀ (s : PoseAILiveLinkSource) (q : List FName),
      names.foldl (acceptStep env c) { s with newConnections := q } =
        { names.foldl (acceptStep env c) s with newConnections := q } := by
  induction names with
  | nil => intro s q; rfl
  | cons n rest ih =>
    intro s q
    rw [List.foldl_cons, List.foldl_cons, ← ih]
    rfl

theorem Update_loop_accept (env : Env) (c : ClientId)
    (hacc : ∀ tr k, env.CreateSubject c tr k = true) (q : List FName) :
    ∀ (s : PoseAILiveLinkSource) (fuel : Nat), s.newConnections = q → q.length ≤ fuel →
      s.liveLinkClient = some c →
      Update.loop env fuel s =
        .ok { q.foldl (acceptStep env c) s with newConnections := [] } := by
  induction q with
  | nil =>
    intro s fuel hq _ _
    have hs : s = { s with newConnections := [] } := by
      cases s
      simp only at hq
      subst hq
      rfl
    cases fuel with
    | zero => simp only [Update.loop, List.foldl_nil]; rw [← hs]
    | succ f => simp only [Update.loop, hq, List.foldl_nil]; rw [← hs]
  | cons n rest ih =>
    intro s fuel hq hlen hc
    cases fuel with
    | zero => simp at hlen
    | succ f =>
      have hlen2 : rest.length ≤ f := by simpa using hlen
      have hstep := AddSubject_accept_step env { s with newConnections := rest } n c hc hacc
      simp only [Update.loop, hq, hstep]
      rw [ih (acceptStep env c { s with newConnections := rest } n) f rfl hlen2 hc]
      have h2 : acceptStep env c { s with newConnections := rest } n =
          { acceptStep env c s n with newConnections := rest } := rfl
      rw [h2, foldl_acceptStep_newConnections, List.foldl_cons]

theorem Update_accept (env : Env) (c : ClientId) (s : PoseAILiveLinkSource)
    (hacc : ∀ tr k, env.CreateSubject c tr k = true) (hc : s.liveLinkClient = some c) :
    Update env s =
      .ok { s.newConnections.foldl (acceptStep env c) s with newConnections := [] } :=
  Update_loop_accept env c hacc s.newConnections s _ rfl (Nat.le_refl _) hc

/-! ## Lemmas on the port set -/

theorem construct_usedPorts (env : Env) (g : Statics) (p : Int)
    (handshake : PoseAIHandshake) (useRootMotion : Bool) :
    (PoseAILiveLinkSource.construct env g p handshake useRootMotion).usedPorts =
      (PortWorld.step { usedPorts := g.usedPorts, live := [] } (.construct p)).usedPorts :=
  rfl

theorem destruct_usedPorts (s : PoseAILiveLinkSource) :
    (PoseAILiveLinkSource.destruct s).usedPorts =
      (PortWorld.step { usedPorts := s.usedPorts, live := [s.port] }
        (.destroy s.port)).usedPorts := by
  simp [PoseAILiveLinkSource.destruct, PortWorld.step]

theorem IsValidPort_eq_true_iff (usedPorts : TArray Int) (p : Int) :
    IsValidPort usedPorts p = true ↔ p ∉ usedPorts := by
  simp only [IsValidPort, TArray.Contains, Bool.not_eq_true', List.any_eq_false,
    decide_eq_true_eq]
  constructor
  · intro h hp
    exact h p hp rfl
  · intro h x hx hxp
    exact h (hxp ▸ hx)

theorem IsValidPort_eq_false_iff (usedPorts : TArray Int) (p : Int) :
    IsValidPort usedPorts p = false ↔ p ∈ usedPorts := by
  simp [IsValidPort, TArray.Contains]

theorem PortWorld.step_construct_inv (w : PortWorld) (p : Int)
    (heq : w.usedPorts = w.live) (hnd : w.live.Nodup)
    (hv : IsValidPort w.usedPorts p = true) :
    (w.step (.construct p)).usedPorts = (w.step (.construct p)).live ∧
    (w.step (.construct p)).live.Nodup := by
  rw [IsValidPort_eq_true_iff, heq] at hv
  refine ⟨by simp [PortWorld.step, TArray.Emplace, heq], ?_⟩
  simp only [PortWorld.step]
  refine List.Nodup.append hnd (List.nodup_singleton p) ?_
  intro a ha hp
  rw [List.mem_singleton] at hp
  subst hp
  exact hv ha

theorem PortWorld.step_destroy_inv (w : PortWorld) (p : Int)
    (heq : w.usedPorts = w.live) (hnd : w.live.Nodup) :
    (w.step (.destroy p)).usedPorts = (w.step (.destroy p)).live ∧
    (w.step (.destroy p)).live.Nodup := by
  by_cases hp : p ∈ w.live
  · simp only [PortWorld.step, hp, if_true]
    refine ⟨?_, hnd.erase p⟩
    rw [hnd.erase_eq_filter, heq]
    apply List.filter_congr
    intro x _
    by_cases hx : x = p <;> simp [hx]
  · simp only [PortWorld.step, hp, if_false]
    exact ⟨heq, hnd⟩

theorem PortWorld.run_inv (ops : List PortOp) :
    ∀ w : PortWorld, w.usedPorts = w.live → w.live.Nodup → PortWorld.checked w ops →
      (w.run ops).usedPorts = (w.run ops).live ∧ (w.run ops).live.Nodup := by
  induction ops with
  | nil => intro w heq hnd _; exact ⟨heq, hnd⟩
  | cons op rest ih =>
    intro w heq hnd hch
    cases op with
    | construct p =>
      obtain ⟨hv, hrest⟩ := hch
      obtain ⟨h1, h2⟩ := PortWorld.step_construct_inv w p heq hnd hv
      exact ih _ h1 h2 hrest
    | destroy p =>
      obtain ⟨h1, h2⟩ := PortWorld.step_destroy_inv w p heq hnd
      exact ih _ h1 h2 hch

/-! ## The claims -/

/-- C1: with a client attached, `UpdatePose` for a name that has no key leaves
`subjectKeys`, `rigs` and the call log as they were, and the state afterwards is the
state before with that name appended once to `newConnections`. -/
theorem C1_UpdatePose_unknown_name_only_enqueues (env : Env) (s : PoseAILiveLinkSource)
    (name : FName) (doc : FJsonObject) (c : ClientId)
    (hc : s.liveLinkClient = some c) (hn : TMap.Find s.subjectKeys name = none) :
    (UpdatePose env s name doc).subjectKeys = s.subjectKeys ∧
    (UpdatePose env s name doc).rigs = s.rigs ∧
    (UpdatePose env s name doc).calls = s.calls ∧
    UpdatePose env s name doc = { s with newConnections := s.newConnections ++ [name] } := by
  simp [UpdatePose, hc, hn]

/-- C1 at the attached source: a pose update for the unknown name Alice. -/
theorem C1_UpdatePose_unknown_name_only_enqueues_witness :
    attachedSource.liveLinkClient = some 7 ∧
    TMap.Find attachedSource.subjectKeys "Alice" = none ∧
    (UpdatePose demoEnv attachedSource "Alice" "valid").calls = attachedSource.calls ∧
    UpdatePose demoEnv attachedSource "Alice" "valid" =
      { attachedSource with newConnections := ["Alice"] } :=
  ⟨rfl, rfl,
    (C1_UpdatePose_unknown_name_only_enqueues demoEnv attachedSource "Alice" "valid" 7
      rfl rfl).2.2.1,
    (C1_UpdatePose_unknown_name_only_enqueues demoEnv attachedSource "Alice" "valid" 7
      rfl rfl).2.2.2⟩

/-- C2, as stated, fails: after `disable()` and then `ReceiveClient(c)` the source has
`enabled = false` and a client attached, and `UpdatePose` is not a no-op there: for an
unknown name it enqueues the name, and for a registered name and an accepted document
it pushes a frame. Both states are reached from the freshly constructed source by the
operations alone. -/
theorem C2_counterexample_disabled_then_attached :
    ReceiveClient demoEnv freshSource (some 7) 1 = .ok attachedSource ∧
    Update demoEnv (UpdatePose demoEnv attachedSource "Alice" "valid") = .ok aliceSource ∧
    (∃ s, ReceiveClient demoEnv (disable freshSource) (some 7) 1 = .ok s ∧
      s.enabled = false ∧ s.newConnections = [] ∧
      (UpdatePose demoEnv s "Alice" "valid").newConnections = ["Alice"]) ∧
    (∃ s, ReceiveClient demoEnv (disable aliceSource) (some 8) 2 = .ok s ∧
      s.enabled = false ∧
      (UpdatePose demoEnv s "Alice" "valid").calls =
        s.calls ++ [Call.PushSubjectFrameData 8 { Source := 2, SubjectName := "Alice" } 1]) := by
  refine ⟨rfl, rfl, ⟨_, rfl, ?_⟩, ⟨_, rfl, ?_⟩⟩
  · decide
  · decide

/-- C2, amended: in every state in which no client is attached, `UpdatePose` is a no-op
for every name and document: the state afterwards is the state before, so `subjectKeys`,
`rigs`, `newConnections` and the call log are unchanged. The `enabled` flag is not read. -/
theorem C2_UpdatePose_without_client_is_noop (env : Env) (s : PoseAILiveLinkSource)
    (name : FName) (doc : FJsonObject) (hc : s.liveLinkClient = none) :
    UpdatePose env s name doc = s := by
  simp [UpdatePose, hc]

/-- C2, amended, at the source with Alice registered, right after `disable()`. -/
theorem C2_UpdatePose_without_client_is_noop_witness :
    (disable aliceSource).liveLinkClient = none ∧
    UpdatePose demoEnv (disable aliceSource) "Alice" "valid" = disable aliceSource :=
  ⟨rfl, C2_UpdatePose_without_client_is_noop demoEnv (disable aliceSource) "Alice" "valid" rfl⟩

/-- C3: the code at the failing input. A name is queued while a client is attached,
then `disable()` is called; the next `Update()` dequeues the name and `AddSubject`
calls `CreateSubject` through the null `liveLinkClient`. -/
theorem C3_Update_after_disable_dereferences_null :
    ReceiveClient demoEnv freshSource (some 7) 1 = .ok attachedSource ∧
    (disable (UpdatePose demoEnv attachedSource "Alice" "valid")).newConnections = ["Alice"] ∧
    Update demoEnv (disable (UpdatePose demoEnv attachedSource "Alice" "valid")) =
      .error Fault.nullDeref :=
  ⟨rfl, rfl, Update_null_client_faults _ _ rfl (by decide)⟩

/-- C4: with a client attached, when the client refuses `CreateSubject` during
`AddSubject(name)`, the call returns, `subjectKeys` has no entry for the name afterwards
(also when it had one before), `rigs` is unchanged, and the entry of every other name
is as before. -/
theorem C4_AddSubject_refused_leaves_no_key (env : Env) (s : PoseAILiveLinkSource)
    (name : FName) (c : ClientId) (hc : s.liveLinkClient = some c)
    (hr : env.CreateSubject c (s.calls ++ oldRemoval c s.subjectKeys name)
      { Source := s.sourceGuid, SubjectName := name } = false) :
    ∃ s1, AddSubject env s name = .ok s1 ∧
      TMap.Find s1.subjectKeys name = none ∧
      s1.rigs = s.rigs ∧
      ∀ other, other ≠ name →
        TMap.Find s1.subjectKeys other = TMap.Find s.subjectKeys other := by
  refine ⟨_, AddSubject_refused env s name c hc hr, ?_, rfl, ?_⟩
  · exact TMap.Find_Remove_self _ _
  · intro other ho
    exact TMap.Find_Remove_ne _ _ _ ho

/-- C4 at a failed replace: Alice is registered and the client refuses the creation. -/
theorem C4_AddSubject_refused_leaves_no_key_witness :
    aliceSource.liveLinkClient = some 7 ∧
    TMap.Find aliceSource.subjectKeys "Alice" = some { Source := 1, SubjectName := "Alice" } ∧
    ∃ s1, AddSubject refusingEnv aliceSource "Alice" = .ok s1 ∧
      TMap.Find s1.subjectKeys "Alice" = none ∧
      s1.rigs = aliceSource.rigs ∧
      ∀ other, other ≠ "Alice" →
        TMap.Find s1.subjectKeys other = TMap.Find aliceSource.subjectKeys other :=
  ⟨rfl, by decide,
    C4_AddSubject_refused_leaves_no_key refusingEnv aliceSource "Alice" 7 rfl rfl⟩

/-- C5: for a name that has a key, and a document that `ProcessFrame` of the rig
stored for the name refuses, `UpdatePose` adds no call to the log (so no
`PushSubjectFrameData`), leaves `subjectKeys` unchanged with the key of the name still
there, keeps the names that have a rig, and enqueues nothing. -/
theorem C5_UpdatePose_rejected_frame_is_dropped (env : Env) (s : PoseAILiveLinkSource)
    (name : FName) (doc : FJsonObject) (key : FLiveLinkSubjectKey)
    (hk : TMap.Find s.subjectKeys name = some key)
    (hf : ∀ rig, TMap.Find s.rigs name = some rig → (env.ProcessFrame rig doc).1 = false) :
    (UpdatePose env s name doc).calls = s.calls ∧
    (UpdatePose env s name doc).subjectKeys = s.subjectKeys ∧
    TMap.Find (UpdatePose env s name doc).subjectKeys name = some key ∧
    TMap.Keys (UpdatePose env s name doc).rigs = TMap.Keys s.rigs ∧
    (UpdatePose env s name doc).newConnections = s.newConnections := by
  cases hc : s.liveLinkClient with
  | none => simp [UpdatePose, hc, hk]
  | some c =>
    cases hr : TMap.Find s.rigs name with
    | none => simp [UpdatePose, hc, hk, hr]
    | some rig =>
      have hmem : name ∈ TMap.Keys s.rigs := by
        by_contra hcon
        rw [← TMap.Find_eq_none_iff] at hcon
        rw [hcon] at hr
        exact Option.noConfusion hr
      have hfail := hf rig hr
      simp [UpdatePose, hc, hk, hr, hfail, TMap.Keys_Add_of_mem _ _ _ hmem]

/-- C5 at the source with Alice registered and a document the rig refuses. -/
theorem C5_UpdatePose_rejected_frame_is_dropped_witness :
    TMap.Find aliceSource.subjectKeys "Alice" = some { Source := 1, SubjectName := "Alice" } ∧
    (∀ rig, TMap.Find aliceSource.rigs "Alice" = some rig →
      (demoEnv.ProcessFrame rig "malformed").1 = false) ∧
    (UpdatePose demoEnv aliceSource "Alice" "malformed").calls = aliceSource.calls ∧
    TMap.Keys (UpdatePose demoEnv aliceSource "Alice" "malformed").rigs = ["Alice"] :=
  have h := C5_UpdatePose_rejected_frame_is_dropped demoEnv aliceSource "Alice" "malformed"
    { Source := 1, SubjectName := "Alice" } (by decide) (fun _ _ => rfl)
  ⟨by decide, fun _ _ => rfl, h.1, h.2.2.2.1⟩


/-- C6: when the map holds one entry per name and the new client accepts every
creation, `ReceiveClient(newClient, newGuid)` returns, and the calls it adds to the
log contain, for every name of the map, exactly one `CreateSubject` and one
`PushSubjectStaticData` for the key `(newGuid, name)`, none of either kind for any
other key, all of them issued to the new client; afterwards the map holds one entry
per name, for exactly the names it held before, each mapped to `(newGuid, name)`. -/
theorem C6_ReceiveClient_recreates_each_subject_once (env : Env)
    (s : PoseAILiveLinkSource) (newClient : ClientId) (newGuid : FGuid)
    (hwf : TMap.WF s.subjectKeys)
    (hacc : ∀ tr k, env.CreateSubject newClient tr k = true) :
    ∃ s1 new, ReceiveClient env s (some newClient) newGuid = .ok s1 ∧
      s1.calls = s.calls ++ new ∧
      (∀ name ∈ TMap.Keys s.subjectKeys,
        new.countP (Call.isCreate { Source := newGuid, SubjectName := name }) = 1 ∧
        new.countP (Call.isPushStatic { Source := newGuid, SubjectName := name }) = 1 ∧
        new.count (Call.CreateSubject newClient { Source := newGuid, SubjectName := name })
          = 1) ∧
      (∀ key : FLiveLinkSubjectKey,
        (key.Source ≠ newGuid ∨ key.SubjectName ∉ TMap.Keys s.subjectKeys) →
        new.countP (Call.isCreate key) = 0 ∧ new.countP (Call.isPushStatic key) = 0) ∧
      (∀ call ∈ new, call.client = newClient) ∧
      TMap.WF s1.subjectKeys ∧
      (∀ name, name ∈ TMap.Keys s1.subjectKeys ↔ name ∈ TMap.Keys s.subjectKeys) ∧
      (∀ name ∈ TMap.Keys s.subjectKeys,
        TMap.Find s1.subjectKeys name = some { Source := newGuid, SubjectName := name }) := by
  let s0 : PoseAILiveLinkSource :=
    { s with sourceGuid := newGuid, client := some newClient,
             liveLinkClient := some newClient }
  have hrun : ReceiveClient env s (some newClient) newGuid =
      .ok ((TMap.Keys s.subjectKeys).foldl (acceptStep env newClient) s0) :=
    loop_accept env newClient hacc (TMap.Keys s.subjectKeys) s0 rfl
  have hcalls := foldl_acceptStep_calls env newClient (TMap.Keys s.subjectKeys) s0
  have hfind := foldl_acceptStep_Find env newClient (TMap.Keys s.subjectKeys) s0
  have hcount := fun key =>
    acceptAllCalls_counts env newClient key (TMap.Keys s.subjectKeys) s0
  have hnodup : (TMap.Keys s.subjectKeys).Nodup := hwf
  refine ⟨_, acceptAllCalls env newClient (TMap.Keys s.subjectKeys) s0, hrun, hcalls,
    ?_, ?_, ?_, ?_, ?_, ?_⟩
  · intro name hname
    have h1 := (hcount { Source := newGuid, SubjectName := name }).1
    have h2 := (hcount { Source := newGuid, SubjectName := name }).2.1
    have hone : (TMap.Keys s.subjectKeys).count name = 1 :=
      List.count_eq_one_of_mem hnodup hname
    have hsrc : s0.sourceGuid = newGuid := rfl
    simp only [hsrc, if_true, hone] at h1 h2
    refine ⟨h1, h2, ?_⟩
    have h3 := (hcount { Source := newGuid, SubjectName := name }).2.2
    rw [List.count_eq_countP]
    rw [← h1]
    apply List.countP_congr
    intro call hcall
    have hcl := h3 call hcall
    cases call with
    | CreateSubject c2 k2 =>
      have hcl2 : c2 = newClient := hcl
      simp [Call.isCreate, hcl2]
    | RemoveSubject c2 k2 => simp [Call.isCreate]
    | PushSubjectStaticData c2 k2 d2 => simp [Call.isCreate]
    | PushSubjectFrameData c2 k2 f2 => simp [Call.isCreate]
  · intro key hkey
    have h1 := (hcount key).1
    have h2 := (hcount key).2.1
    have hsrc : s0.sourceGuid = newGuid := rfl
    rw [hsrc] at h1 h2
    rcases hkey with hk | hk
    · simp only [hk, if_false] at h1 h2
      exact ⟨h1, h2⟩
    · have hz : (TMap.Keys s.subjectKeys).count key.SubjectName = 0 :=
        List.count_eq_zero_of_not_mem hk
      simp only [hz, ite_self] at h1 h2
      exact ⟨h1, h2⟩
  · exact (hcount { Source := newGuid, SubjectName := "" }).2.2
  · exact foldl_acceptStep_WF env newClient _ s0 hwf
  · intro name
    have h := hfind name
    by_cases hn : name ∈ TMap.Keys s.subjectKeys
    · simp only [hn, if_true] at h
      constructor
      · intro _; exact hn
      · intro _
        by_contra hcon
        rw [← TMap.Find_eq_none_iff] at hcon
        rw [hcon] at h
        exact Option.noConfusion h
    · simp only [hn, if_false] at h
      have hnone : TMap.Find s0.subjectKeys name = none :=
        (TMap.Find_eq_none_iff _ _).2 hn
      rw [hnone, TMap.Find_eq_none_iff] at h
      constructor
      · intro h2; exact absurd h2 h
      · intro h2; exact absurd h2 hn
  · intro name hn
    have h := hfind name
    simp only [hn, if_true] at h
    exact h

/-- C6 at the source with Alice registered: client 8 attaches under guid 2. -/
theorem C6_ReceiveClient_recreates_each_subject_once_witness :
    TMap.WF aliceSource.subjectKeys ∧
    (∀ tr k, demoEnv.CreateSubject 8 tr k = true) ∧
    ∃ s1 new, ReceiveClient demoEnv aliceSource (some 8) 2 = .ok s1 ∧
      s1.calls = aliceSource.calls ++ new ∧
      new.countP (Call.isCreate { Source := 2, SubjectName := "Alice" }) = 1 ∧
      new.countP (Call.isPushStatic { Source := 2, SubjectName := "Alice" }) = 1 ∧
      TMap.Find s1.subjectKeys "Alice" = some { Source := 2, SubjectName := "Alice" } := by
  have hwf : TMap.WF aliceSource.subjectKeys := by
    simp [TMap.WF, TMap.Keys, aliceSource]
  have hmem : "Alice" ∈ TMap.Keys aliceSource.subjectKeys := by
    simp [TMap.Keys, aliceSource]
  obtain ⟨s1, new, h1, h2, h3, _, _, _, _, h8⟩ :=
    C6_ReceiveClient_recreates_each_subject_once demoEnv aliceSource 8 2 hwf
      (fun _ _ => rfl)
  exact ⟨hwf, fun _ _ => rfl, s1, new, h1, h2, (h3 "Alice" hmem).1, (h3 "Alice" hmem).2.1,
    h8 "Alice" hmem⟩

/-- C7, as stated, fails: after `RequestSourceShutdown()` on a source constructed on
port 14043 the port is still in `usedPorts` and `IsValidPort(14043)` is false. -/
theorem C7_counterexample_port_still_reserved :
    (RequestSourceShutdown freshSource).1 = true ∧
    (RequestSourceShutdown freshSource).2.usedPorts = [14043] ∧
    IsValidPort (RequestSourceShutdown freshSource).2.usedPorts 14043 = false := by
  decide

/-- C7, amended: a source constructed on port `p` makes `IsValidPort(p)` false;
`RequestSourceShutdown()` returns true and leaves `usedPorts` and the port of the source
as they were, so the port stays reserved; the destructor is what releases it: after
the destructor has run on the shut-down source, `IsValidPort` is true for its port. -/
theorem C7_port_released_by_destructor (env : Env) (g : Statics) (p : Int)
    (handshake : PoseAIHandshake) (useRootMotion : Bool) (s : PoseAILiveLinkSource) :
    (PoseAILiveLinkSource.construct env g p handshake useRootMotion).port = p ∧
    IsValidPort (PoseAILiveLinkSource.construct env g p handshake useRootMotion).usedPorts p
      = false ∧
    (RequestSourceShutdown s).1 = true ∧
    (RequestSourceShutdown s).2.usedPorts = s.usedPorts ∧
    (RequestSourceShutdown s).2.port = s.port ∧
    IsValidPort (PoseAILiveLinkSource.destruct (RequestSourceShutdown s).2).usedPorts s.port
      = true := by
  refine ⟨rfl, ?_, rfl, rfl, rfl, ?_⟩
  · simp [IsValidPort, PoseAILiveLinkSource.construct, TArray.Contains, TArray.Emplace]
  · simp [IsValidPort, PoseAILiveLinkSource.destruct, RequestSourceShutdown,
      TArray.Contains, TArray.Remove, List.mem_filter]

/-- C8, as stated, fails: the constructor appends its port without looking at
`usedPorts`, so two constructions on port 14043 leave two live sources on that port and
the port twice in `usedPorts`; destroying one of them removes every occurrence, and
`IsValidPort(14043)` is true while the other source is still alive. -/
theorem C8_counterexample_same_port_constructed_twice :
    (PortWorld.start.run [.construct 14043, .construct 14043]).live = [14043, 14043] ∧
    (PortWorld.start.run [.construct 14043, .construct 14043]).usedPorts = [14043, 14043] ∧
    (PortWorld.start.run [.construct 14043, .construct 14043, .destroy 14043]).live
      = [14043] ∧
    IsValidPort
      (PortWorld.start.run [.construct 14043, .construct 14043, .destroy 14043]).usedPorts
      14043 = true := by
  decide

/-- C8, amended: for every sequence of constructions and destructions in which each
construction is made on a port for which `IsValidPort` answered true at that moment,
no port is held by two live sources, `usedPorts` does not contain a port twice, and
`IsValidPort(p)` is false for every port `p` a live source holds. -/
theorem C8_checked_constructions_keep_ports_exclusive (ops : List PortOp)
    (h : PortWorld.checked PortWorld.start ops) :
    (PortWorld.start.run ops).live.Nodup ∧
    (PortWorld.start.run ops).usedPorts.Nodup ∧
    ∀ p ∈ (PortWorld.start.run ops).live,
      IsValidPort (PortWorld.start.run ops).usedPorts p = false := by
  obtain ⟨heq, hnd⟩ := PortWorld.run_inv ops PortWorld.start rfl List.nodup_nil h
  refine ⟨hnd, heq ▸ hnd, ?_⟩
  intro p hp
  rw [IsValidPort_eq_false_iff, heq]
  exact hp

/-- C8, amended, at a sequence that reuses port 14043 after its source is destroyed. -/
theorem C8_checked_constructions_keep_ports_exclusive_witness :
    PortWorld.checked PortWorld.start
      [.construct 14043, .construct 14044, .destroy 14043, .construct 14043] ∧
    (PortWorld.start.run
      [.construct 14043, .construct 14044, .destroy 14043, .construct 14043]).live
      = [14044, 14043] ∧
    (PortWorld.start.run
      [.construct 14043, .construct 14044, .destroy 14043, .construct 14043]).live.Nodup ∧
    ∀ p ∈ (PortWorld.start.run
        [.construct 14043, .construct 14044, .destroy 14043, .construct 14043]).live,
      IsValidPort (PortWorld.start.run
        [.construct 14043, .construct 14044, .destroy 14043, .construct 14043]).usedPorts p
        = false :=
  have hch : PortWorld.checked PortWorld.start
      [.construct 14043, .construct 14044, .destroy 14043, .construct 14043] := by
    simp [PortWorld.checked, PortWorld.step, PortWorld.start, IsValidPort, TArray.Contains,
      TArray.Emplace, TArray.Remove]
  ⟨hch, by decide,
    (C8_checked_constructions_keep_ports_exclusive _ hch).1,
    (C8_checked_constructions_keep_ports_exclusive _ hch).2.2⟩

/-- C9: with a client attached, `RequestSourceShutdown()` returns true and adds to the
log exactly one `RemoveSubject` per entry of `subjectKeys`, issued to that client for the
key the entry stores, and nothing else: for every key the number of `RemoveSubject`
calls for it is the number of entries storing it, which is one for a stored key when the
stored keys are distinct. Afterwards `subjectKeys` is empty and no client is attached. -/
theorem C9_RequestSourceShutdown_removes_every_subject (s : PoseAILiveLinkSource)
    (c : ClientId) (hc : s.liveLinkClient = some c) :
    (RequestSourceShutdown s).1 = true ∧
    (RequestSourceShutdown s).2.calls =
      s.calls ++ s.subjectKeys.map (fun e => Call.RemoveSubject c e.2) ∧
    (∀ key, (s.subjectKeys.map (fun e => Call.RemoveSubject c e.2)).countP
        (Call.isRemove key) = storedCount s.subjectKeys key) ∧
    ((s.subjectKeys.map Prod.snd).Nodup →
      ∀ key, storedCount s.subjectKeys key =
        if key ∈ s.subjectKeys.map Prod.snd then 1 else 0) ∧
    (RequestSourceShutdown s).2.subjectKeys = [] ∧
    (RequestSourceShutdown s).2.liveLinkClient = none := by
  refine ⟨rfl, by simp [RequestSourceShutdown, hc], ?_, ?_, rfl, rfl⟩
  · intro key
    rw [List.countP_map]
    rfl
  · intro hnd key
    have h1 : storedCount s.subjectKeys key = (s.subjectKeys.map Prod.snd).count key := by
      unfold storedCount
      rw [List.count_eq_countP, List.countP_map]
      apply List.countP_congr
      intro e _
      simp
    rw [h1]
    by_cases hk : key ∈ s.subjectKeys.map Prod.snd
    · rw [if_pos hk]
      exact List.count_eq_one_of_mem hnd hk
    · rw [if_neg hk]
      exact List.count_eq_zero_of_not_mem hk

/-- C9 at the source with Alice registered. -/
theorem C9_RequestSourceShutdown_removes_every_subject_witness :
    aliceSource.liveLinkClient = some 7 ∧
    (RequestSourceShutdown aliceSource).2.calls =
      aliceSource.calls ++ [Call.RemoveSubject 7 { Source := 1, SubjectName := "Alice" }] ∧
    (RequestSourceShutdown aliceSource).2.subjectKeys = [] ∧
    (RequestSourceShutdown aliceSource).2.liveLinkClient = none :=
  have h := C9_RequestSourceShutdown_removes_every_subject aliceSource 7 rfl
  ⟨rfl, h.2.1, h.2.2.2.2.1, h.2.2.2.2.2⟩

/-- C10, as stated, fails: `AddSubject` itself calls `RemoveSubject` for the new key
between `CreateSubject` and `PushSubjectStaticData`, so one poll with Alice queued once
followed by shutdown logs two `RemoveSubject` calls for the key of Alice, not one. -/
theorem C10_counterexample_two_removals :
    ∃ s1, Update demoEnv (UpdatePose demoEnv attachedSource "Alice" "valid") = .ok s1 ∧
      (RequestSourceShutdown s1).2.calls =
        [Call.CreateSubject 7 { Source := 1, SubjectName := "Alice" },
         Call.RemoveSubject 7 { Source := 1, SubjectName := "Alice" },
         Call.PushSubjectStaticData 7 { Source := 1, SubjectName := "Alice" } 0,
         Call.RemoveSubject 7 { Source := 1, SubjectName := "Alice" }] ∧
      (RequestSourceShutdown s1).2.calls.countP
        (Call.isRemove { Source := 1, SubjectName := "Alice" }) = 2 := by
  refine ⟨_, rfl, ?_⟩
  decide

/-- The source of the examples is reached by the operations: attaching client 7 under
guid 1 to the fresh source gives `attachedSource`; a pose update for Alice followed by
`Update()` then gives `aliceSource`. -/
theorem demo_sources_reached :
    ReceiveClient demoEnv freshSource (some 7) 1 = .ok attachedSource ∧
    Update demoEnv (UpdatePose demoEnv attachedSource "Alice" "valid") = .ok aliceSource := by
  constructor <;> rfl

/-! ## Later claims -/

theorem FString.Contains_iff (s sub : String) :
    FString.Contains s sub = true ↔ containsIgnoringCase s sub := by
  unfold FString.Contains containsIgnoringCase
  rw [List.any_eq_true, List.infix_iff_prefix_suffix]
  constructor
  · rintro ⟨t, ht, hp⟩
    exact ⟨t, List.isPrefixOf_iff_prefix.1 hp, (List.mem_tails _ _).1 ht⟩
  · rintro ⟨t, hp, ht⟩
    exact ⟨t, (List.mem_tails _ _).2 ht, List.isPrefixOf_iff_prefix.2 hp⟩

/-- C11: for every state, `RequestSourceShutdown()` returns true both times, the second
call leaves the state the first one left (so it adds no call to the log), and in that
state `subjectKeys` is empty, the server pointer is cleared and no client is attached. -/
theorem C11_RequestSourceShutdown_idempotent (s : PoseAILiveLinkSource) :
    (RequestSourceShutdown s).1 = true ∧
    (RequestSourceShutdown (RequestSourceShutdown s).2).1 = true ∧
    (RequestSourceShutdown (RequestSourceShutdown s).2).2 = (RequestSourceShutdown s).2 ∧
    (RequestSourceShutdown (RequestSourceShutdown s).2).2.calls =
      (RequestSourceShutdown s).2.calls ∧
    (RequestSourceShutdown s).2.subjectKeys = [] ∧
    (RequestSourceShutdown s).2.udpServer = false ∧
    (RequestSourceShutdown s).2.liveLinkClient = none := by
  refine ⟨rfl, rfl, ?_, ?_, rfl, rfl, rfl⟩ <;> simp [RequestSourceShutdown]

/-- C12, as stated, fails when containment is read letter for letter: `FString::Contains`
ignores case, so the mode `bodyonly`, which does not contain `BodyOnly`, gives
`includeHands = false`, and the mode `desktop`, which does not contain `Desktop`, gives
`isDesktop = true`. -/
theorem C12_counterexample_case_is_ignored :
    ¬ containsExact "bodyonly" "BodyOnly" ∧
    (MakeRig (sourceWithMode "bodyonly")).includeHands = false ∧
    ¬ containsExact "desktop" "Desktop" ∧
    (MakeRig (sourceWithMode "desktop")).isDesktop = true := by
  refine ⟨?_, ?_, ?_, ?_⟩
  · unfold containsExact; decide
  · decide
  · unfold containsExact; decide
  · decide

/-- C12, amended: for every handshake and root-motion flag, `MakeRig()` builds the rig
with the skeleton name `handshake.rig`, `useRootMotion` the flag of the source,
`isMirrored` that of the handshake, `includeHands` true exactly when the mode does not
contain `BodyOnly` ignoring letter case, and `isDesktop` true exactly when the mode
contains `Desktop` ignoring letter case. -/
theorem C12_MakeRig_configuration (s : PoseAILiveLinkSource) :
    (MakeRig s).rigType = s.handshake.rig ∧
    (MakeRig s).useRootMotion = s.useRootMotion ∧
    (MakeRig s).isMirrored = s.handshake.isMirrored ∧
    ((MakeRig s).includeHands = true ↔ ¬ containsIgnoringCase s.handshake.mode "BodyOnly") ∧
    ((MakeRig s).isDesktop = true ↔ containsIgnoringCase s.handshake.mode "Desktop") := by
  refine ⟨rfl, rfl, rfl, ?_, ?_⟩
  · rw [← FString.Contains_iff]
    simp [MakeRig]
  · rw [← FString.Contains_iff]
    simp [MakeRig]

/-- C14, as stated, fails: on the freshly constructed source no client is attached, and
`UpdatePose` returns at its first test: the name Alice is not queued. -/
theorem C14_counterexample_name_not_queued :
    freshSource.liveLinkClient = none ∧
    (UpdatePose demoEnv freshSource "Alice" "valid").newConnections = [] ∧
    "Alice" ∉ (UpdatePose demoEnv freshSource "Alice" "valid").newConnections := by
  decide

/-- C14, amended: on a freshly constructed source, to which no client has been attached,
`UpdatePose(name, doc)` is a no-op: it pushes no frame and does not queue the name, the
queue stays empty and the log as it was. The name is queued by a pose update that
arrives once a client is attached. -/
theorem C14_UpdatePose_on_fresh_source_is_noop (env : Env) (g : Statics) (portNum : Int)
    (handshake : PoseAIHandshake) (useRootMotion : Bool) (name : FName)
    (doc : FJsonObject) (c : ClientId) (guid : FGuid) :
    UpdatePose env (PoseAILiveLinkSource.construct env g portNum handshake useRootMotion)
        name doc =
      PoseAILiveLinkSource.construct env g portNum handshake useRootMotion ∧
    (UpdatePose env (PoseAILiveLinkSource.construct env g portNum handshake useRootMotion)
        name doc).newConnections = [] ∧
    (UpdatePose env (PoseAILiveLinkSource.construct env g portNum handshake useRootMotion)
        name doc).calls = g.calls ∧
    ∃ s1, ReceiveClient env
        (UpdatePose env (PoseAILiveLinkSource.construct env g portNum handshake useRootMotion)
          name doc) (some c) guid = .ok s1 ∧
      s1.newConnections = [] ∧
      (UpdatePose env s1 name doc).newConnections = [name] ∧
      (UpdatePose env s1 name doc).calls = g.calls :=
  ⟨rfl, rfl, rfl, _, rfl, rfl, rfl, rfl⟩

/-- C15: the code at the failing input. With a client attached that refuses the
creation, `AddSubject` returns at line 58 with the lock taken at line 49 still held: the
hold count is one more than before. The accepted path, `disable()` and
`RequestSourceShutdown()` leave the hold count as it was. -/
theorem C15_AddSubject_refused_returns_with_lock_held :
    attachedSource.mutx = 0 ∧
    (∃ s1, AddSubject refusingEnv attachedSource "Alice" = .ok s1 ∧ s1.mutx = 1 ∧
      s1.lockedAt = 49 ∧ s1.unlockedAt = attachedSource.unlockedAt) ∧
    (∃ s2, AddSubject demoEnv attachedSource "Alice" = .ok s2 ∧ s2.mutx = 0) ∧
    (disable attachedSource).mutx = 0 ∧
    (RequestSourceShutdown attachedSource).2.mutx = 0 :=
  ⟨rfl, ⟨_, rfl, rfl, rfl, rfl⟩, ⟨_, rfl, rfl⟩, rfl, rfl⟩

theorem lock_count_on_each_path (env : Env) (s : PoseAILiveLinkSource) (name : FName)
    (c : ClientId) (hc : s.liveLinkClient = some c) :
    (disable s).mutx = s.mutx ∧
    (RequestSourceShutdown s).2.mutx = s.mutx ∧
    ∃ s1, AddSubject env s name = .ok s1 ∧
      s1.mutx = if env.CreateSubject c (s.calls ++ oldRemoval c s.subjectKeys name)
          { Source := s.sourceGuid, SubjectName := name } = true
        then s.mutx else s.mutx + 1 := by
  refine ⟨by simp [disable], by simp [RequestSourceShutdown], ?_⟩
  cases h : env.CreateSubject c (s.calls ++ oldRemoval c s.subjectKeys name)
      { Source := s.sourceGuid, SubjectName := name } with
  | false => exact ⟨_, AddSubject_refused env s name c hc h, by simp⟩
  | true => exact ⟨_, AddSubject_accepted env s name c hc h, by simp⟩

/-! ## Every key has a rig -/

theorem TMap.mem_Keys_Add {κ ν : Type} [DecidableEq κ] (m : TMap κ ν) (k x : κ) (v : ν) :
    x ∈ TMap.Keys (TMap.Add m k v) ↔ x = k ∨ x ∈ TMap.Keys m := by
  by_cases hk : k ∈ TMap.Keys m
  · rw [TMap.Keys_Add_of_mem _ _ _ hk]
    constructor
    · intro h; exact Or.inr h
    · rintro (h | h)
      · rw [h]; exact hk
      · exact h
  · rw [TMap.Keys_Add_of_not_mem _ _ _ hk, List.mem_append, List.mem_singleton]
    exact Or.comm

theorem TMap.mem_Keys_of_mem_Keys_Remove {κ ν : Type} [DecidableEq κ] (m : TMap κ ν)
    (k x : κ) (h : x ∈ TMap.Keys (TMap.Remove m k)) : x ∈ TMap.Keys m := by
  rw [TMap.Keys_Remove, List.mem_filter] at h
  exact h.1

theorem AddSubject_null_client_faults (env : Env) (s : PoseAILiveLinkSource) (name : FName)
    (hc : s.liveLinkClient = none) : AddSubject env s name = .error Fault.nullDeref := by
  cases h : TMap.Find s.subjectKeys name <;>
    simp [AddSubject, AddSubject.replace, AddSubject.create, h, hc]

theorem AddSubject_keysHaveRigs (env : Env) (s s1 : PoseAILiveLinkSource) (name : FName)
    (h : AddSubject env s name = .ok s1) (hinv : keysHaveRigs s) : keysHaveRigs s1 := by
  cases hc : s.liveLinkClient with
  | none =>
    rw [AddSubject_null_client_faults env s name hc] at h
    exact Except.noConfusion h
  | some c =>
    cases hcr : env.CreateSubject c (s.calls ++ oldRemoval c s.subjectKeys name)
        { Source := s.sourceGuid, SubjectName := name } with
    | false =>
      rw [AddSubject_refused env s name c hc hcr] at h
      have h2 := Except.ok.inj h
      subst h2
      intro x hx
      exact hinv x (TMap.mem_Keys_of_mem_Keys_Remove _ _ _ hx)
    | true =>
      rw [AddSubject_accepted env s name c hc hcr] at h
      have h2 := Except.ok.inj h
      subst h2
      intro x hx
      simp only [TMap.mem_Keys_Add] at hx ⊢
      rcases hx with hx | hx
      · exact Or.inl hx
      · exact Or.inr (hinv x (TMap.mem_Keys_of_mem_Keys_Remove _ _ _ hx))

theorem Update_loop_keysHaveRigs (env : Env) (fuel : Nat) :
    ∀ s s1 : PoseAILiveLinkSource, Update.loop env fuel s = .ok s1 → keysHaveRigs s →
      keysHaveRigs s1 := by
  induction fuel with
  | zero =>
    intro s s1 h hinv
    have h2 := Except.ok.inj h
    subst h2
    exact hinv
  | succ f ih =>
    intro s s1 h hinv
    cases hq : s.newConnections with
    | nil =>
      simp only [Update.loop, hq] at h
      have h2 := Except.ok.inj h
      subst h2
      exact hinv
    | cons n rest =>
      simp only [Update.loop, hq] at h
      cases ha : AddSubject env { s with newConnections := rest } n with
      | error e =>
        rw [ha] at h
        exact Except.noConfusion h
      | ok s2 =>
        rw [ha] at h
        exact ih s2 s1 h (AddSubject_keysHaveRigs env _ s2 n ha hinv)

theorem ReceiveClient_loop_keysHaveRigs (env : Env) (names : List FName) :
    ∀ s s1 : PoseAILiveLinkSource, ReceiveClient.loop env names s = .ok s1 →
      keysHaveRigs s → keysHaveRigs s1 := by
  induction names with
  | nil =>
    intro s s1 h hinv
    have h2 := Except.ok.inj h
    subst h2
    exact hinv
  | cons n rest ih =>
    intro s s1 h hinv
    simp only [ReceiveClient.loop] at h
    cases ha : AddSubject env s n with
    | error e =>
      rw [ha] at h
      exact Except.noConfusion h
    | ok s2 =>
      rw [ha] at h
      exact ih s2 s1 h (AddSubject_keysHaveRigs env s s2 n ha hinv)

theorem UpdatePose_keysHaveRigs (env : Env) (s : PoseAILiveLinkSource) (name : FName)
    (doc : FJsonObject) (hinv : keysHaveRigs s) : keysHaveRigs (UpdatePose env s name doc) := by
  cases hc : s.liveLinkClient with
  | none => simpa [UpdatePose, hc] using hinv
  | some c =>
    cases hk : TMap.Find s.subjectKeys name with
    | none =>
      intro x hx
      have hx2 : x ∈ TMap.Keys s.subjectKeys := by simpa [UpdatePose, hc, hk] using hx
      simpa [UpdatePose, hc, hk] using hinv x hx2
    | some key =>
      cases hr : TMap.Find s.rigs name with
      | none => simpa [UpdatePose, hc, hk, hr] using hinv
      | some rig =>
        intro x hx
        have hsk : (UpdatePose env s name doc).subjectKeys = s.subjectKeys := by
          by_cases hp : (env.ProcessFrame rig doc).1 = true <;>
            simp [UpdatePose, hc, hk, hr, hp]
        have hrg : (UpdatePose env s name doc).rigs =
            TMap.Add s.rigs name (env.ProcessFrame rig doc).2.2 := by
          by_cases hp : (env.ProcessFrame rig doc).1 = true <;>
            simp [UpdatePose, hc, hk, hr, hp]
        rw [hsk] at hx
        rw [hrg, TMap.mem_Keys_Add]
        exact Or.inr (hinv x hx)

theorem Reachable_keysHaveRigs (env : Env) (s : PoseAILiveLinkSource)
    (hr : Reachable env s) : keysHaveRigs s := by
  induction hr with
  | fresh g portNum handshake useRootMotion =>
    intro x hx
    simp [PoseAILiveLinkSource.construct, TMap.Keys] at hx
  | step s s1 op _ hrun ih =>
    cases op with
    | AddSubject name => exact AddSubject_keysHaveRigs env s s1 name hrun ih
    | Update => exact Update_loop_keysHaveRigs env _ s s1 hrun ih
    | ReceiveClient InClient InSourceGuid =>
      cases InClient with
      | none => exact Except.noConfusion hrun
      | some c =>
        exact ReceiveClient_loop_keysHaveRigs env _ _ s1 hrun ih
    | disable =>
      have h2 := Except.ok.inj hrun
      subst h2
      exact ih
    | RequestSourceShutdown =>
      have h2 := Except.ok.inj hrun
      subst h2
      intro x hx
      simp [RequestSourceShutdown, TMap.Keys] at hx
    | UpdatePose name doc =>
      have h2 := Except.ok.inj hrun
      subst h2
      exact UpdatePose_keysHaveRigs env s name doc ih

/-- C16: in every state reached from a freshly constructed source by `AddSubject`,
`Update`, `ReceiveClient`, `disable`, `RequestSourceShutdown` and `UpdatePose`, every
name that has a key has a rig; so for a name with a key the rig lookup of `UpdatePose`
finds a rig, and with a client attached `UpdatePose` logs one `PushSubjectFrameData` for
the stored key when `ProcessFrame` of that rig accepts the document and logs nothing
when it refuses. -/
theorem C16_every_key_has_a_rig (env : Env) (s : PoseAILiveLinkSource)
    (hr : Reachable env s) :
    keysHaveRigs s ∧
    ∀ name key, TMap.Find s.subjectKeys name = some key →
      ∃ rig, TMap.Find s.rigs name = some rig ∧
        ∀ c doc, s.liveLinkClient = some c →
          (UpdatePose env s name doc).calls =
            s.calls ++
              (if (env.ProcessFrame rig doc).1 = true
               then [Call.PushSubjectFrameData c key (env.ProcessFrame rig doc).2.1]
               else []) := by
  have hinv := Reachable_keysHaveRigs env s hr
  refine ⟨hinv, ?_⟩
  intro name key hk
  have hmem : name ∈ TMap.Keys s.subjectKeys := by
    by_contra hcon
    rw [← TMap.Find_eq_none_iff] at hcon
    rw [hcon] at hk
    exact Option.noConfusion hk
  have hrig := hinv name hmem
  cases hf : TMap.Find s.rigs name with
  | none =>
    rw [TMap.Find_eq_none_iff] at hf
    exact absurd hrig hf
  | some rig =>
    refine ⟨rig, rfl, ?_⟩
    intro c doc hc
    by_cases hp : (env.ProcessFrame rig doc).1 = true <;>
      simp [UpdatePose, hc, hk, hf, hp]

/-- The example source with Alice registered is a reached state. -/
theorem aliceSource_Reachable : Reachable demoEnv aliceSource := by
  have h0 : Reachable demoEnv freshSource :=
    Reachable.fresh freshStatics 14043 demoHandshake false
  have h1 : Reachable demoEnv attachedSource :=
    Reachable.step freshSource attachedSource (Op.ReceiveClient (some 7) 1) h0 rfl
  have h2 : Reachable demoEnv (UpdatePose demoEnv attachedSource "Alice" "valid") :=
    Reachable.step attachedSource _ (Op.UpdatePose "Alice" "valid") h1 rfl
  exact Reachable.step _ aliceSource Op.Update h2 rfl

/-- C16 at the source with Alice registered: an accepted document is pushed, a refused
one is not. -/
theorem C16_every_key_has_a_rig_witness :
    Reachable demoEnv aliceSource ∧
    TMap.Find aliceSource.subjectKeys "Alice" = some { Source := 1, SubjectName := "Alice" } ∧
    ∃ rig, TMap.Find aliceSource.rigs "Alice" = some rig ∧
      (UpdatePose demoEnv aliceSource "Alice" "valid").calls =
        aliceSource.calls ++
          [Call.PushSubjectFrameData 7 { Source := 1, SubjectName := "Alice" } 1] ∧
      (UpdatePose demoEnv aliceSource "Alice" "malformed").calls = aliceSource.calls := by
  obtain ⟨rig, h1, h2⟩ :=
    (C16_every_key_has_a_rig demoEnv aliceSource aliceSource_Reachable).2 "Alice"
      { Source := 1, SubjectName := "Alice" } (by decide)
  refine ⟨aliceSource_Reachable, by decide, rig, h1, ?_, ?_⟩
  · have h3 := h2 7 "valid" rfl
    have hp : (demoEnv.ProcessFrame rig "valid").1 = true := rfl
    rw [if_pos hp] at h3
    exact h3
  · have h3 := h2 7 "malformed" rfl
    have hp : ¬ (demoEnv.ProcessFrame rig "malformed").1 = true := by
      show ¬ (decide ("malformed" = "valid") = true)
      decide
    rw [if_neg hp, List.append_nil] at h3
    exact h3

/-! ## Every stored key carries its name -/

theorem AddSubject_keysCarryNames (env : Env) (s s1 : PoseAILiveLinkSource) (name : FName)
    (h : AddSubject env s name = .ok s1) (hinv : keysCarryNames s) : keysCarryNames s1 := by
  cases hc : s.liveLinkClient with
  | none =>
    rw [AddSubject_null_client_faults env s name hc] at h
    exact Except.noConfusion h
  | some c =>
    cases hcr : env.CreateSubject c (s.calls ++ oldRemoval c s.subjectKeys name)
        { Source := s.sourceGuid, SubjectName := name } with
    | false =>
      rw [AddSubject_refused env s name c hc hcr] at h
      have h2 := Except.ok.inj h
      subst h2
      intro e he
      simp only [TMap.Remove, List.mem_filter] at he
      exact hinv e he.1
    | true =>
      rw [AddSubject_accepted env s name c hc hcr] at h
      have h2 := Except.ok.inj h
      subst h2
      intro e he
      simp only [TMap.Add_Remove_eq, List.mem_append, List.mem_singleton] at he
      rcases he with he | he
      · simp only [TMap.Remove, List.mem_filter] at he
        exact hinv e he.1
      · rw [he]

theorem Update_loop_keysCarryNames (env : Env) (fuel : Nat) :
    ∀ s s1 : PoseAILiveLinkSource, Update.loop env fuel s = .ok s1 → keysCarryNames s →
      keysCarryNames s1 := by
  induction fuel with
  | zero =>
    intro s s1 h hinv
    have h2 := Except.ok.inj h
    subst h2
    exact hinv
  | succ f ih =>
    intro s s1 h hinv
    cases hq : s.newConnections with
    | nil =>
      simp only [Update.loop, hq] at h
      have h2 := Except.ok.inj h
      subst h2
      exact hinv
    | cons n rest =>
      simp only [Update.loop, hq] at h
      cases ha : AddSubject env { s with newConnections := rest } n with
      | error e =>
        rw [ha] at h
        exact Except.noConfusion h
      | ok s2 =>
        rw [ha] at h
        exact ih s2 s1 h (AddSubject_keysCarryNames env _ s2 n ha hinv)

theorem ReceiveClient_loop_keysCarryNames (env : Env) (names : List FName) :
    ∀ s s1 : PoseAILiveLinkSource, ReceiveClient.loop env names s = .ok s1 →
      keysCarryNames s → keysCarryNames s1 := by
  induction names with
  | nil =>
    intro s s1 h hinv
    have h2 := Except.ok.inj h
    subst h2
    exact hinv
  | cons n rest ih =>
    intro s s1 h hinv
    simp only [ReceiveClient.loop] at h
    cases ha : AddSubject env s n with
    | error e =>
      rw [ha] at h
      exact Except.noConfusion h
    | ok s2 =>
      rw [ha] at h
      exact ih s2 s1 h (AddSubject_keysCarryNames env s s2 n ha hinv)

theorem UpdatePose_subjectKeys (env : Env) (s : PoseAILiveLinkSource) (name : FName)
    (doc : FJsonObject) : (UpdatePose env s name doc).subjectKeys = s.subjectKeys := by
  cases hc : s.liveLinkClient with
  | none => simp [UpdatePose, hc]
  | some c =>
    cases hk : TMap.Find s.subjectKeys name with
    | none => simp [UpdatePose, hc, hk]
    | some key =>
      cases hr : TMap.Find s.rigs name with
      | none => simp [UpdatePose, hc, hk, hr]
      | some rig =>
        by_cases hp : (env.ProcessFrame rig doc).1 = true <;>
          simp [UpdatePose, hc, hk, hr, hp]

theorem Reachable_keysCarryNames (env : Env) (s : PoseAILiveLinkSource)
    (hr : Reachable env s) : keysCarryNames s := by
  induction hr with
  | fresh g portNum handshake useRootMotion =>
    intro e he
    simp [PoseAILiveLinkSource.construct] at he
  | step s s1 op _ hrun ih =>
    cases op with
    | AddSubject name => exact AddSubject_keysCarryNames env s s1 name hrun ih
    | Update => exact Update_loop_keysCarryNames env _ s s1 hrun ih
    | ReceiveClient InClient InSourceGuid =>
      cases InClient with
      | none => exact Except.noConfusion hrun
      | some c =>
        exact ReceiveClient_loop_keysCarryNames env _ _ s1 hrun ih
    | disable =>
      have h2 := Except.ok.inj hrun
      subst h2
      exact ih
    | RequestSourceShutdown =>
      have h2 := Except.ok.inj hrun
      subst h2
      intro e he
      simp [RequestSourceShutdown] at he
    | UpdatePose name doc =>
      have h2 := Except.ok.inj hrun
      subst h2
      intro e he
      rw [UpdatePose_subjectKeys] at he
      exact ih e he

theorem unregistered_key_not_stored (s : PoseAILiveLinkSource) (name : FName)
    (hinv : keysCarryNames s) (hn : TMap.Find s.subjectKeys name = none) :
    ∀ e ∈ s.subjectKeys, e.2 ≠ { Source := s.sourceGuid, SubjectName := name } := by
  intro e he hkey
  rw [TMap.Find_eq_none_iff] at hn
  apply hn
  have h1 := hinv e he
  rw [hkey] at h1
  have h2 : e.1 = name := h1.symm
  rw [← h2]
  exact List.mem_map_of_mem Prod.fst he

theorem acceptAllCalls_append (env : Env) (c : ClientId) (a b : List FName) :
    ∀ s : PoseAILiveLinkSource,
      acceptAllCalls env c (a ++ b) s =
        acceptAllCalls env c a s ++ acceptAllCalls env c b (a.foldl (acceptStep env c) s) := by
  induction a with
  | nil => intro s; rfl
  | cons n rest ih =>
    intro s
    have h := ih (acceptStep env c s n)
    show acceptCalls env c s n ++ acceptAllCalls env c (rest ++ b) (acceptStep env c s n) = _
    rw [h]
    simp only [acceptAllCalls, List.foldl_cons, List.append_assoc]

theorem acceptAllCalls_split_at_name (env : Env) (c : ClientId) (s : PoseAILiveLinkSource)
    (name : FName) (hq : s.newConnections.count name = 1)
    (hn : TMap.Find s.subjectKeys name = none) :
    ∃ before after data,
      acceptAllCalls env c s.newConnections s =
        before ++
          [Call.CreateSubject c { Source := s.sourceGuid, SubjectName := name },
           Call.RemoveSubject c { Source := s.sourceGuid, SubjectName := name },
           Call.PushSubjectStaticData c { Source := s.sourceGuid, SubjectName := name } data]
          ++ after := by
  have hmem : name ∈ s.newConnections := by
    rw [← List.count_pos_iff, hq]
    exact Nat.one_pos
  obtain ⟨q1, q2, hsplit⟩ := List.append_of_mem hmem
  have hnot : name ∉ q1 := by
    intro h1
    have hpos : 0 < q1.count name := List.count_pos_iff.2 h1
    rw [hsplit, List.count_append, List.count_cons_self] at hq
    omega
  have hfind : TMap.Find (q1.foldl (acceptStep env c) s).subjectKeys name = none := by
    rw [foldl_acceptStep_Find]
    simp [hnot, hn]
  have hguid := (foldl_acceptStep_sourceGuid env c q1 s).1
  refine ⟨acceptAllCalls env c q1 s,
    acceptAllCalls env c q2 (acceptStep env c (q1.foldl (acceptStep env c) s) name),
    env.MakeStaticData (MakeRig (q1.foldl (acceptStep env c) s)), ?_⟩
  rw [hsplit, acceptAllCalls_append]
  simp only [acceptAllCalls, acceptCalls, oldRemoval, hfind, hguid, List.nil_append,
    List.append_assoc]

/-- The source with Alice queued once is a reached state. -/
theorem queuedSource_Reachable :
    Reachable demoEnv (UpdatePose demoEnv attachedSource "Alice" "valid") := by
  have h0 : Reachable demoEnv freshSource :=
    Reachable.fresh freshStatics 14043 demoHandshake false
  have h1 : Reachable demoEnv attachedSource :=
    Reachable.step freshSource attachedSource (Op.ReceiveClient (some 7) 1) h0 rfl
  exact Reachable.step attachedSource _ (Op.UpdatePose "Alice" "valid") h1 rfl

/-- C10, amended: in every state the source reaches, for a name that has no key, with an
accepting client attached, one `Update()` with the name queued once returns, and the
calls it logs hold the run `CreateSubject`, `RemoveSubject`, `PushSubjectStaticData` for
the key of the name, one right after the other, with no creation, removal or static
push for that key before or after the run: the removal is issued by `AddSubject`
between the creation and the push. The `RequestSourceShutdown()` that follows logs
exactly one more `RemoveSubject` for that key and no creation or push. The whole trace
so holds exactly one `CreateSubject`, one `PushSubjectStaticData` and two
`RemoveSubject` calls for the key. -/
theorem C10_poll_then_shutdown_call_counts (env : Env) (s : PoseAILiveLinkSource)
    (c : ClientId) (name : FName)
    (hr : Reachable env s)
    (hc : s.liveLinkClient = some c)
    (hacc : ∀ tr k, env.CreateSubject c tr k = true)
    (hq : s.newConnections.count name = 1)
    (hn : TMap.Find s.subjectKeys name = none) :
    ∃ s1 polled removed, Update env s = .ok s1 ∧
      s1.calls = s.calls ++ polled ∧
      (RequestSourceShutdown s1).2.calls = s1.calls ++ removed ∧
      polled.countP (Call.isCreate { Source := s.sourceGuid, SubjectName := name }) = 1 ∧
      polled.countP (Call.isPushStatic { Source := s.sourceGuid, SubjectName := name }) = 1 ∧
      polled.countP (Call.isRemove { Source := s.sourceGuid, SubjectName := name }) = 1 ∧
      removed.countP (Call.isCreate { Source := s.sourceGuid, SubjectName := name }) = 0 ∧
      removed.countP (Call.isPushStatic { Source := s.sourceGuid, SubjectName := name }) = 0 ∧
      removed.countP (Call.isRemove { Source := s.sourceGuid, SubjectName := name }) = 1 ∧
      (polled ++ removed).countP
        (Call.isRemove { Source := s.sourceGuid, SubjectName := name }) = 2 ∧
      ∃ before after data,
        polled = before ++
          [Call.CreateSubject c { Source := s.sourceGuid, SubjectName := name },
           Call.RemoveSubject c { Source := s.sourceGuid, SubjectName := name },
           Call.PushSubjectStaticData c { Source := s.sourceGuid, SubjectName := name } data]
          ++ after ∧
        before.countP (Call.isCreate { Source := s.sourceGuid, SubjectName := name }) = 0 ∧
        before.countP (Call.isRemove { Source := s.sourceGuid, SubjectName := name }) = 0 ∧
        before.countP (Call.isPushStatic { Source := s.sourceGuid, SubjectName := name }) = 0 ∧
        after.countP (Call.isCreate { Source := s.sourceGuid, SubjectName := name }) = 0 ∧
        after.countP (Call.isRemove { Source := s.sourceGuid, SubjectName := name }) = 0 ∧
        after.countP (Call.isPushStatic { Source := s.sourceGuid, SubjectName := name }) = 0 := by
  have hfresh := unregistered_key_not_stored s name (Reachable_keysCarryNames env s hr) hn
  have hJ : storedOnlyUnder s.subjectKeys
      { Source := s.sourceGuid, SubjectName := name } name :=
    fun e he hkey => absurd hkey (hfresh e he)
  have hmem : name ∈ s.newConnections := by
    rw [← List.count_pos_iff, hq]
    exact Nat.one_pos
  obtain ⟨_, hsc, hrm⟩ :=
    acceptAll_removes env c name s.sourceGuid s.newConnections s rfl hJ
  obtain ⟨hcr, hps, _⟩ :=
    acceptAllCalls_counts env c { Source := s.sourceGuid, SubjectName := name }
      s.newConnections s
  have hcl := (foldl_acceptStep_sourceGuid env c s.newConnections s).2.1
  have hcalls := foldl_acceptStep_calls env c s.newConnections s
  simp only [if_true, hq] at hcr hps
  simp only [hq, hn, hmem, if_true] at hsc hrm
  have hrm1 : (acceptAllCalls env c s.newConnections s).countP
      (Call.isRemove { Source := s.sourceGuid, SubjectName := name }) = 1 := by
    rw [hrm]; simp
  have hremoved : ((s.newConnections.foldl (acceptStep env c) s).subjectKeys.map
      (fun e => Call.RemoveSubject c e.2)).countP
      (Call.isRemove { Source := s.sourceGuid, SubjectName := name }) = 1 := by
    rw [List.countP_map, ← hsc]
    rfl
  obtain ⟨before, after, data, hsplit⟩ := acceptAllCalls_split_at_name env c s name hq hn
  have hcr2 := hcr
  have hps2 := hps
  have hrm2 := hrm1
  rw [hsplit] at hcr2 hps2 hrm2
  simp only [List.countP_append, List.countP_cons, List.countP_nil, Call.isCreate,
    Call.isRemove, Call.isPushStatic, decide_True, if_true] at hcr2 hps2 hrm2
  refine ⟨_, acceptAllCalls env c s.newConnections s,
    (s.newConnections.foldl (acceptStep env c) s).subjectKeys.map
      (fun e => Call.RemoveSubject c e.2),
    Update_accept env c s hacc hc, hcalls, ?_, hcr, hps, hrm1, ?_, ?_, hremoved, ?_,
    before, after, data, hsplit, ?_, ?_, ?_, ?_, ?_, ?_⟩
  · simp [RequestSourceShutdown, hcl, hc]
  · rw [List.countP_map, List.countP_eq_zero]
    intro e _
    simp [Call.isCreate]
  · rw [List.countP_map, List.countP_eq_zero]
    intro e _
    simp [Call.isPushStatic]
  · rw [List.countP_append, hrm1, hremoved]
  all_goals omega

/-- C10, amended, at the attached source with Alice queued once. -/
theorem C10_poll_then_shutdown_call_counts_witness :
    Reachable demoEnv (UpdatePose demoEnv attachedSource "Alice" "valid") ∧
    (UpdatePose demoEnv attachedSource "Alice" "valid").liveLinkClient = some 7 ∧
    (UpdatePose demoEnv attachedSource "Alice" "valid").newConnections = ["Alice"] ∧
    TMap.Find (UpdatePose demoEnv attachedSource "Alice" "valid").subjectKeys "Alice" = none ∧
    ∃ s1 polled removed,
      Update demoEnv (UpdatePose demoEnv attachedSource "Alice" "valid") = .ok s1 ∧
      s1.calls = (UpdatePose demoEnv attachedSource "Alice" "valid").calls ++ polled ∧
      (RequestSourceShutdown s1).2.calls = s1.calls ++ removed ∧
      polled.countP (Call.isCreate { Source := 1, SubjectName := "Alice" }) = 1 ∧
      polled.countP (Call.isPushStatic { Source := 1, SubjectName := "Alice" }) = 1 ∧
      (polled ++ removed).countP (Call.isRemove { Source := 1, SubjectName := "Alice" }) = 2 ∧
      ∃ before after data,
        polled = before ++
          [Call.CreateSubject 7 { Source := 1, SubjectName := "Alice" },
           Call.RemoveSubject 7 { Source := 1, SubjectName := "Alice" },
           Call.PushSubjectStaticData 7 { Source := 1, SubjectName := "Alice" } data]
          ++ after := by
  obtain ⟨s1, polled, removed, h1, h2, h3, h4, h5, _, _, _, _, h10, before, after, data,
      h11, _⟩ :=
    C10_poll_then_shutdown_call_counts demoEnv
      (UpdatePose demoEnv attachedSource "Alice" "valid") 7 "Alice" queuedSource_Reachable
      rfl (fun _ _ => rfl) (by decide) (by decide)
  exact ⟨queuedSource_Reachable, rfl, by decide, by decide, s1, polled, removed, h1, h2, h3,
    h4, h5, h10, before, after, data, h11⟩

end PoseAI
